import Mathlib

/-!
Verification of the HTML normalization and asset-inlining pipeline of the
`wordpress_from_office_uploader` repository.

The development shallowly embeds the pipeline `inline_assets_and_clean`
(src/main.py, lines 392-607) together with its helpers (`resolve_local`,
`data_uri_for`, the final regex cleanup passes) and the standalone style
helpers (`_pt_to_px`, `clamp_hairline_borders`, `ensure_default_line_height`),
plus `_resolve_local` of src/main_mac_ready.py.

Modelling conventions:
 - `pathlib` paths are a flag (absolute?) plus a list of components; joining
   with an absolute right operand replaces the left operand, `"."` and empty
   components are dropped, exactly as `PurePosixPath` does.
 - The filesystem is a list of file entries (path, raw bytes, and the parse
   tree the pipeline obtains when it parses that file as HTML) plus a list of
   existing directories.  `Path.exists()` is membership in either list.
 - Parsed HTML documents are `Node` trees (element with tag/attributes or
   text); a document root is an element tagged `"[document]"` as in
   BeautifulSoup.  Raw (non-HTML) file contents parse to a bare text node.
 - File bytes are modelled as strings of ASCII characters; `base64` works on
   their code points.
 - Python regular-expression substitutions are implemented as explicit
   left-to-right scanners with the same leftmost, non-overlapping match
   semantics as `re.sub`; `\s` is the Python whitespace class (the
   characters actually occurring in the repository's data are ASCII).
 - Python float arithmetic of `_pt_to_px` (`round(val * 1.3333, 2)` and
   `f"{px}"` formatting) is modelled with exact integer arithmetic in
   hundredths and round-half-even; at the magnitudes appearing in styles the
   binary doubles and the exact values round identically.
-/

/-! ### Characters and strings -/

/-- ASCII lowercase, as `str.lower()` does on the ASCII range. -/
def charLower (c : Char) : Char :=
  if 65 ≤ c.toNat ∧ c.toNat ≤ 90 then Char.ofNat (c.toNat + 32) else c

/-- Python whitespace (`str.strip()` / regex `\s`): ASCII whitespace plus
the unicode spaces that can occur in office exports (NBSP, NEL, IS1-IS4). -/
def isPySpace (c : Char) : Bool :=
  c.toNat == 32 || c.toNat == 9 || c.toNat == 10 || c.toNat == 11 ||
  c.toNat == 12 || c.toNat == 13 || c.toNat == 133 || c.toNat == 160 ||
  c.toNat == 28 || c.toNat == 29 || c.toNat == 30 || c.toNat == 31

/-- The quote characters stripped by `strip('\x27\x22')`. -/
def isQuoteChar (c : Char) : Bool :=
  c.toNat == 39 || c.toNat == 34

/-- Case-insensitive match of the pattern `p` at the head of `l`; returns the
rest of `l` after the match. -/
def matchCI : List Char → List Char → Option (List Char)
  | [], l => some l
  | _ :: _, [] => none
  | p :: ps, c :: cs => if charLower c = charLower p then matchCI ps cs else none

/-- Is `pat` a prefix of `l` (case-sensitive)? -/
def isSubAt : List Char → List Char → Bool
  | [], _ => true
  | _ :: _, [] => false
  | p :: ps, c :: cs => p == c && isSubAt ps cs

/-- Python's `pat in hay` substring test. -/
def listHasSub (pat : List Char) : List Char → Bool
  | [] => isSubAt pat []
  | c :: cs => isSubAt pat (c :: cs) || listHasSub pat cs

/-- Python's `pat in hay` on strings. -/
def strContains (hay pat : String) : Bool := listHasSub pat.data hay.data

/-- The `hay.endswith(suf)`. -/
def strEndsWith (hay suf : String) : Bool := isSubAt suf.data.reverse hay.data.reverse

/-- The `s.lower()` (ASCII range). -/
def pyLower (s : String) : String := ⟨s.data.map charLower⟩

/-- The `s.strip()`. -/
def pyStrip (s : String) : String :=
  ⟨((s.data.dropWhile isPySpace).reverse.dropWhile isPySpace).reverse⟩

/-- The `s.strip(chars)` for a character class given as a Boolean predicate. -/
def pyStripClass (p : Char → Bool) (s : String) : String :=
  ⟨((s.data.dropWhile p).reverse.dropWhile p).reverse⟩

/-- The `str.split()` with no argument: split on whitespace runs, drop empties. -/
def pySplitWS (s : String) : List String :=
  go s.data [] []
where
  go : List Char → List Char → List String → List String
    | [], cur, acc => ((if cur.isEmpty then acc else ⟨cur.reverse⟩ :: acc)).reverse
    | c :: cs, cur, acc =>
      if isPySpace c then
        go cs [] (if cur.isEmpty then acc else ⟨cur.reverse⟩ :: acc)
      else go cs (c :: cur) acc

/-- Lexicographic `≤` on character lists via code points (Python `str` order
on the ASCII range). -/
def lexLe : List Char → List Char → Bool
  | [], _ => true
  | _ :: _, [] => false
  | a :: as_, b :: bs =>
    if a.toNat < b.toNat then true
    else if b.toNat < a.toNat then false
    else lexLe as_ bs

/-! ### Paths (`pathlib.PurePosixPath`) -/

/-- A filesystem path: absolute flag and components. -/
structure FPath where
  absolute : Bool
  parts : List String
deriving DecidableEq

/-- Split a character list on `/` separators (`str.split("/")`). -/
def splitOnSlash (l : List Char) : List String :=
  go l [] []
where
  go : List Char → List Char → List String → List String
    | [], cur, acc => (⟨cur.reverse⟩ :: acc).reverse
    | c :: cs, cur, acc =>
      if c == Char.ofNat 47 then go cs [] (⟨cur.reverse⟩ :: acc)
      else go cs (c :: cur) acc

/-- Parse a string into a path the way `PurePosixPath` does: absolute when it
begins with `/`; components split on `/`, empty and `"."` components
dropped. -/
def parsePath (s : String) : FPath :=
  { absolute := match s.data with | c :: _ => c == Char.ofNat 47 | [] => false
    parts := (splitOnSlash s.data).filter (fun t => !(t == "") && !(t == ".")) }

/-- The `p / q`: an absolute right operand replaces the left operand. -/
def FPath.join (p q : FPath) : FPath :=
  if q.absolute then q else ⟨p.absolute, p.parts ++ q.parts⟩

/-- The `p / s` for a string `s`. -/
def FPath.joinS (p : FPath) (s : String) : FPath := p.join (parsePath s)

/-- The `p.parent`. -/
def FPath.parent (p : FPath) : FPath := ⟨p.absolute, p.parts.dropLast⟩

/-- The `p.name` (empty for a root path). -/
def FPath.nameStr (p : FPath) : String := p.parts.getLastD ""

/-- Append one final component that contains no separator (used for
`dir / Path(src).name`); the empty name is a no-op, as `dir / ''` is. -/
def FPath.childName (p : FPath) (n : String) : FPath :=
  if n = "" then p else ⟨p.absolute, p.parts ++ [n]⟩

/-- Index of the last occurrence of `c` in `l`, if any. -/
def lastIdxOf (c : Char) (l : List Char) : Option Nat :=
  go c l 0 none
where
  go : Char → List Char → Nat → Option Nat → Option Nat
    | _, [], _, acc => acc
    | c, d :: ds, i, acc => go c ds (i + 1) (if d == c then some i else acc)

/-- Split a file name into `(stem, suffix)` as `pathlib` does: the suffix is
from the last dot, provided that dot is neither the first nor the last
character of the name. -/
def pathSplitExt (n : String) : String × String :=
  match lastIdxOf (Char.ofNat 46) n.data with
  | some i =>
    if 0 < i ∧ i + 1 < n.data.length then (⟨n.data.take i⟩, ⟨n.data.drop i⟩)
    else (n, "")
  | none => (n, "")

/-- The `p.stem`. -/
def FPath.stem (p : FPath) : String := (pathSplitExt p.nameStr).1

/-- The `p.suffix`. -/
def FPath.suffixStr (p : FPath) : String := (pathSplitExt p.nameStr).2

/-! ### Documents (BeautifulSoup trees) -/

/-- A parsed markup node: element (tag, attributes in insertion order,
children) or text. -/
inductive Node where
  | el : String → List (String × String) → List Node → Node
  | txt : String → Node

/-- The tag of an element (text nodes have the empty pseudo-tag). -/
def nodeTag : Node → String
  | .el t _ _ => t
  | .txt _ => ""

/-- Children of a node. -/
def nodeKids : Node → List Node
  | .el _ _ ks => ks
  | .txt _ => []

/-- The `tag.get(key)`. -/
def nodeAttr (n : Node) (k : String) : Option String :=
  match n with
  | .el _ a _ => (a.find? (fun kv => kv.1 == k)).map (fun kv => kv.2)
  | .txt _ => none

/-- The `attrs[key] = v`: replace in place, or append preserving insertion
order. -/
def setKV (k v : String) : List (String × String) → List (String × String)
  | [] => [(k, v)]
  | kv :: rest => if kv.1 == k then (k, v) :: rest else kv :: setKV k v rest

/-- The `tag[key] = v`. -/
def setAttr (n : Node) (k v : String) : Node :=
  match n with
  | .el t a ks => .el t (setKV k v a) ks
  | .txt s => .txt s

/-! ### Filesystem -/

/-- An on-disk file: path, raw bytes (as a string of byte characters), and
the parse tree obtained when this file is parsed as HTML (none for binary
files, which parse to a bare text soup). -/
structure FileEntry where
  path : FPath
  bytes : String
  parsed : Option Node

/-- A filesystem snapshot. -/
structure FS where
  files : List FileEntry
  dirs : List FPath

/-- Look up the file entry at `p`. -/
def FS.fileAt? (fs : FS) (p : FPath) : Option FileEntry :=
  fs.files.find? (fun e => decide (e.path = p))

/-- The `Path(p).exists()`: true for files and directories. -/
def FS.pathExists (fs : FS) (p : FPath) : Bool :=
  (fs.fileAt? p).isSome || fs.dirs.any (fun d => decide (d = p))

/-- Well-formedness of a snapshot: every existing non-root entry lives in an
existing parent (true of every real filesystem). -/
def FS.wf (fs : FS) : Prop :=
  (∀ e ∈ fs.files, e.path.parts ≠ [] → fs.pathExists e.path.parent = true) ∧
  (∀ d ∈ fs.dirs, d.parts ≠ [] → fs.pathExists d.parent = true)

instance (fs : FS) : Decidable fs.wf := by
  unfold FS.wf; infer_instance

/-- The parse tree the pipeline obtains from a file (BeautifulSoup parses any
bytes; non-HTML contents become a bare text soup). -/
def docOf (e : FileEntry) : Node := e.parsed.getD (Node.txt e.bytes)

/-! ### Resource resolver (src/main.py, `resolve_local`, lines 468-488) -/

/-- The `resolve_local` of `inline_assets_and_clean`: try
`assets_dir / src` (when the asset directory exists), then
`html_path.parent / src`, then `assets_dir / Path(src).name` (when the asset
directory exists), then `html_path.parent / Path(src).name`. -/
def resolve_local (fs : FS) (assetsDir docDir : FPath) (src : String) : Option FPath :=
  if src = "" then none
  else if fs.pathExists assetsDir && fs.pathExists (assetsDir.joinS src) then
    some (assetsDir.joinS src)
  else if fs.pathExists (docDir.joinS src) then
    some (docDir.joinS src)
  else if fs.pathExists assetsDir &&
      fs.pathExists (assetsDir.childName (parsePath src).nameStr) then
    some (assetsDir.childName (parsePath src).nameStr)
  else if fs.pathExists (docDir.childName (parsePath src).nameStr) then
    some (docDir.childName (parsePath src).nameStr)
  else none

/-- The resolution order exactly as claim C3 words it: candidates
(a) reference joined to the asset directory (only when that directory
exists), (b) reference joined to the document directory, (c) bare filename
joined to the asset directory, (d) bare filename joined to the document
directory; the first existing candidate wins. -/
def resolve_spec (fs : FS) (assetsDir docDir : FPath) (src : String) : Option FPath :=
  let cands :=
    (if fs.pathExists assetsDir then [assetsDir.joinS src] else []) ++
    [docDir.joinS src,
     assetsDir.childName (parsePath src).nameStr,
     docDir.childName (parsePath src).nameStr]
  cands.find? (fun c => fs.pathExists c)

/-! ### Resource resolver (src/main_mac_ready.py, `_resolve_local`, 265-285) -/

/-- The scheme guard of `_resolve_local`:
`re.match(r"^(data:|https?:|mailto:|#)", src, re.I)`. -/
def schemeQualified (src : String) : Bool :=
  let l := (pyLower src).data
  isSubAt "data:".data l || isSubAt "http:".data l || isSubAt "https:".data l ||
  isSubAt "mailto:".data l || isSubAt "#".data l

/-- The `src.replace("\\", "/").lstrip("./")`. -/
def macCleanSrc (src : String) : String :=
  ⟨((src.data.map (fun c => if c == Char.ofNat 92 then Char.ofNat 47 else c)).dropWhile
      (fun c => c == Char.ofNat 46 || c == Char.ofNat 47))⟩

/-- The `Path(d).rglob(name)` restricted to files, in snapshot order (the
enumeration order of `rglob` is filesystem-dependent; the model uses the
order of the snapshot's file list). -/
def rglobName (fs : FS) (d : FPath) (name : String) : List FPath :=
  (fs.files.filter (fun e =>
    decide (e.path.parts.take d.parts.length = d.parts) &&
    decide (e.path.absolute = d.absolute) &&
    decide (d.parts.length < e.path.parts.length) &&
    e.path.nameStr == name)).map (fun e => e.path)

/-- The `_resolve_local` of src/main_mac_ready.py: refuse scheme-qualified and
fragment references outright, then try each companion directory, the HTML
directory, and finally a recursive search by bare filename in the companion
directories. -/
def mac_resolve_local (fs : FS) (htmlDir : FPath) (companionDirs : List FPath)
    (src : String) : Option FPath :=
  if src = "" || schemeQualified src then none
  else
    let srcClean := macCleanSrc src
    match companionDirs.find? (fun d => fs.pathExists (d.joinS srcClean)) with
    | some d => some (d.joinS srcClean)
    | none =>
      if fs.pathExists (htmlDir.joinS srcClean) then some (htmlDir.joinS srcClean)
      else
        let name := (parsePath srcClean).nameStr
        match companionDirs.find? (fun d => !(rglobName fs d name).isEmpty) with
        | some d => (rglobName fs d name).head?
        | none => none

/-! ### Left-to-right substitution scanners (`re.sub` with empty replacement)

`stripByAux m` deletes, left to right, every non-overlapping match of the
matcher `m` (a function returning the rest of the input after a match at its
head).  The fuel argument is initialised with the input length; all matchers
used here consume at least one character, so the fuel never runs out. -/

def stripByAux (m : List Char → Option (List Char)) : Nat → List Char → List Char
  | 0, l => l
  | _ + 1, [] => []
  | fuel + 1, c :: cs =>
    match m (c :: cs) with
    | some r => stripByAux m fuel r
    | none => c :: stripByAux m fuel cs

/-- Does `l` contain a match of `m` at some position? -/
def hasBy (m : List Char → Option (List Char)) : List Char → Bool
  | [] => (m []).isSome
  | c :: cs => (m (c :: cs)).isSome || hasBy m cs

/-- Scan forward for the first position where the case-insensitive pattern
matches; return the rest of the input after that match (lazy `.*?pat`). -/
def scanForCI (pat : List Char) : List Char → Option (List Char)
  | [] => matchCI pat []
  | c :: cs =>
    match matchCI pat (c :: cs) with
    | some r => some r
    | none => scanForCI pat cs

/-- Match `(html|head|body)` case-insensitively at the head. -/
def matchWrapName (l : List Char) : Option (List Char) :=
  match matchCI "html".data l with
  | some r => some r
  | none =>
    match matchCI "head".data l with
    | some r => some r
    | none => matchCI "body".data l

/-- Match the pattern `<\s*(html|head|body)[^>]*>` (flags `re.I`) at the
head of the input. -/
def matchOpenTagAt : List Char → Option (List Char)
  | c :: rest =>
    if c == Char.ofNat 60 then
      match matchWrapName (rest.dropWhile isPySpace) with
      | none => none
      | some r2 =>
        match r2.dropWhile (fun d => !(d == Char.ofNat 62)) with
        | d :: r4 => if d == Char.ofNat 62 then some r4 else none
        | [] => none
    else none
  | [] => none

/-- Match the pattern `</\s*(html|head|body)\s*>` (flags `re.I`) at the head
of the input. -/
def matchCloseTagAt : List Char → Option (List Char)
  | c :: c2 :: rest =>
    if c == Char.ofNat 60 && c2 == Char.ofNat 47 then
      match matchWrapName (rest.dropWhile isPySpace) with
      | none => none
      | some r2 =>
        match r2.dropWhile isPySpace with
        | d :: r4 => if d == Char.ofNat 62 then some r4 else none
        | [] => none
    else none
  | _ => none

/-- Match the pattern `<!--\[if.*?endif\]-->` (flags `re.I | re.S`) at the
head of the input. -/
def matchCondAt (l : List Char) : Option (List Char) :=
  match matchCI "<!--[if".data l with
  | none => none
  | some r => scanForCI "endif]-->".data r

/-- First cleanup substitution of `inline_assets_and_clean` (line 603):
strip conditional-comment blocks. -/
def stripCondComments (l : List Char) : List Char := stripByAux matchCondAt l.length l

/-- Second cleanup substitution (line 604): strip opening
html/head/body tags. -/
def stripOpenWrapTags (l : List Char) : List Char := stripByAux matchOpenTagAt l.length l

/-- Third cleanup substitution (line 605): strip closing html/head/body
tags. -/
def stripCloseWrapTags (l : List Char) : List Char := stripByAux matchCloseTagAt l.length l

/-- The final textual cleanup of `inline_assets_and_clean` (lines 602-605),
applied to the serialized wrapper. -/
def cleanupWrapperNoise (s : String) : String :=
  ⟨stripCloseWrapTags (stripOpenWrapTags (stripCondComments s.data))⟩

/-- Does the string contain an occurrence of an opening html/head/body tag
(the pattern of line 604)? -/
def hasOpenWrapTag (s : String) : Bool := hasBy matchOpenTagAt s.data

/-- Does the string contain an occurrence of a closing html/head/body tag
(the pattern of line 605)? -/
def hasCloseWrapTag (s : String) : Bool := hasBy matchCloseTagAt s.data

/-- Does the string contain a conditional-comment block (line 603)? -/
def hasCondComment (s : String) : Bool := hasBy matchCondAt s.data

/-! ### The worksheet-source hint (line 426):
`re.search(r'HRef="([^"]+sheet\d+\.htm)"', xml_text, flags=re.I)` -/

/-- Is `c` an ASCII digit? -/
def isDigitCh (c : Char) : Bool := 48 ≤ c.toNat && c.toNat ≤ 57

/-- Does the attribute value (given as its character list) end in
`sheet<digits>.htm` preceded by at least one character (`[^"]+`),
case-insensitively? -/
def sheetHintValue (v : List Char) : Bool :=
  match matchCI "mth.".data v.reverse with
  | none => false
  | some r1 =>
    let ds := r1.takeWhile isDigitCh
    if ds.isEmpty then false
    else
      match matchCI "teehs".data (r1.drop ds.length) with
      | none => false
      | some r3 => !r3.isEmpty

/-- Try the hint pattern at the head of the input: literal `HRef="`
(case-insensitive), then the quoted value, which must satisfy
`sheetHintValue`. -/
def hintValueAt (l : List Char) : Option String :=
  match matchCI "href=\"".data l with
  | none => none
  | some r =>
    let v := r.takeWhile (fun c => !(c == Char.ofNat 34))
    match r.drop v.length with
    | c :: _ => if c == Char.ofNat 34 && sheetHintValue v then some ⟨v⟩ else none
    | [] => none

/-- Leftmost search for the hint pattern. -/
def hintScan : List Char → Option String
  | [] => none
  | c :: cs =>
    match hintValueAt (c :: cs) with
    | some v => some v
    | none => hintScan cs

/-- The `re.search(r'HRef="([^"]+sheet\d+\.htm)"', s, flags=re.I)`, returning the
captured group. -/
def hintRe (s : String) : Option String := hintScan s.data

/-! ### Data URIs (`data_uri_for`, lines 367-372) -/

/-- The base64 alphabet. -/
def b64Alphabet : List Char :=
  "ABCDEFGHIJKLMNOPQRSTUVWXYZabcdefghijklmnopqrstuvwxyz0123456789+/".data

/-- The base64 digit for a 6-bit value. -/
def b64Ch (n : Nat) : Char := (b64Alphabet.drop n).headD (Char.ofNat 65)

/-- Standard base64 of a byte list, with `=` padding. -/
def b64Encode : List Nat → List Char
  | [] => []
  | [a] => [b64Ch (a / 4), b64Ch (a % 4 * 16), Char.ofNat 61, Char.ofNat 61]
  | [a, b] =>
    [b64Ch (a / 4), b64Ch (a % 4 * 16 + b / 16), b64Ch (b % 16 * 4), Char.ofNat 61]
  | a :: b :: c :: rest =>
    b64Ch (a / 4) :: b64Ch (a % 4 * 16 + b / 16) :: b64Ch (b % 16 * 4 + c / 64) ::
    b64Ch (c % 64) :: b64Encode rest

/-- The `mimetypes.guess_type(name)` with the default
`application/octet-stream` fallback of `data_uri_for` (the table is
restricted to the extensions these exports produce). -/
def guessMime (name : String) : String :=
  let ext := pyLower (pathSplitExt name).2
  if ext = ".png" then "image/png"
  else if ext = ".jpg" || ext = ".jpeg" then "image/jpeg"
  else if ext = ".gif" then "image/gif"
  else if ext = ".bmp" then "image/bmp"
  else if ext = ".svg" then "image/svg+xml"
  else if ext = ".css" then "text/css"
  else if ext = ".htm" || ext = ".html" then "text/html"
  else "application/octet-stream"

/-- The `data_uri_for(path)` given the file's bytes. -/
def data_uri_for (p : FPath) (bytes : String) : String :=
  "data:" ++ guessMime p.nameStr ++ ";base64," ++ ⟨b64Encode (bytes.data.map Char.toNat)⟩

/-! ### `_rewrite_css_urls` (lines 528-547) -/

/-- The replacement computed for one `url(...)` occurrence whose stripped
reference is `raw`: resolve relative to the CSS file's directory, then by
bare filename inside the asset directory; unresolved (or unreadable)
references are re-emitted as `url(raw)`. -/
def cssUrlReplacement (fs : FS) (assetsDir baseDir : FPath) (raw : String) : String :=
  let cand := baseDir.joinS raw
  if fs.pathExists cand then
    match fs.fileAt? cand with
    | some e => "url(" ++ data_uri_for cand e.bytes ++ ")"
    | none => "url(" ++ raw ++ ")"
  else if fs.pathExists assetsDir then
    let byName := assetsDir.childName (parsePath raw).nameStr
    if fs.pathExists byName then
      match fs.fileAt? byName with
      | some e => "url(" ++ data_uri_for byName e.bytes ++ ")"
      | none => "url(" ++ raw ++ ")"
    else "url(" ++ raw ++ ")"
  else "url(" ++ raw ++ ")"

/-- Scanner for `re.sub(r"url\(([^)]+)\)", repl, css_text, flags=re.I)`:
the captured group is stripped of whitespace and quotes before resolution. -/
def rewriteCssUrlsAux (fs : FS) (assetsDir baseDir : FPath) : Nat → List Char → List Char
  | 0, l => l
  | _ + 1, [] => []
  | fuel + 1, c :: cs =>
    match matchCI "url(".data (c :: cs) with
    | some r =>
      let grp := r.takeWhile (fun d => !(d == Char.ofNat 41))
      match r.drop grp.length with
      | d :: rest =>
        if d == Char.ofNat 41 && !grp.isEmpty then
          let raw := pyStripClass isQuoteChar (pyStrip ⟨grp⟩)
          (cssUrlReplacement fs assetsDir baseDir raw).data ++
            rewriteCssUrlsAux fs assetsDir baseDir fuel rest
        else c :: rewriteCssUrlsAux fs assetsDir baseDir fuel cs
      | [] => c :: rewriteCssUrlsAux fs assetsDir baseDir fuel cs
    | none => c :: rewriteCssUrlsAux fs assetsDir baseDir fuel cs

/-- The `_rewrite_css_urls(css_text, base_dir)`. -/
def rewrite_css_urls (fs : FS) (assetsDir baseDir : FPath) (css : String) : String :=
  ⟨rewriteCssUrlsAux fs assetsDir baseDir css.data.length css.data⟩

/-! ### `_pt_to_px` (lines 65-75) -/

/-- Parse a `[\d.]+` token as Python `float` does, as numerator and a
power-of-ten denominator; `none` models the `ValueError` raised on tokens
such as `"."` or `"1.2.3"`. -/
def pyFloatParts (tok : List Char) : Option (Nat × Nat) :=
  let dotCount := (tok.filter (fun c => c == Char.ofNat 46)).length
  if dotCount == 0 then some (tok.foldl (fun a c => a * 10 + (c.toNat - 48)) 0, 1)
  else if dotCount == 1 && 1 ≤ (tok.filter isDigitCh).length then
    let ip := tok.takeWhile (fun c => !(c == Char.ofNat 46))
    let fp := tok.drop (ip.length + 1)
    some ((ip ++ fp).foldl (fun a c => a * 10 + (c.toNat - 48)) 0, 10 ^ fp.length)
  else none

/-- Round `q / d` to the nearest integer, ties to even (Python `round`). -/
def roundHalfEven (q d : Nat) : Nat :=
  let n := q / d
  let r := q % d
  if 2 * r > d then n + 1
  else if 2 * r < d then n
  else if n % 2 == 0 then n else n + 1

/-- The `round(val * 1.3333, 2)` in hundredths, computed exactly. -/
def ptPxHundredths (num den : Nat) : Nat :=
  roundHalfEven (num * 13333 * 100) (den * 10000)

/-- Python `f"{px}"` for the non-negative float `px` given in hundredths
(one decimal beyond the integer part is always printed, trailing zeros
beyond it are not). -/
def fmtPyFloat2 (h : Nat) : String :=
  let ip := h / 100
  let fr := h % 100
  if fr == 0 then toString ip ++ ".0"
  else if fr % 10 == 0 then toString ip ++ "." ++ toString (fr / 10)
  else toString ip ++ "." ++ (if fr < 10 then "0" ++ toString fr else toString fr)

/-- Match `([\d.]+)\s*pt` (case-sensitive, no flags) at the head; returns the
numeric token and the rest after the match. -/
def matchPtAt (l : List Char) : Option (List Char × List Char) :=
  let tok := l.takeWhile (fun c => isDigitCh c || c == Char.ofNat 46)
  if tok.isEmpty then none
  else
    let r1 := (l.drop tok.length).dropWhile isPySpace
    if isSubAt "pt".data r1 then some (tok, r1.drop 2) else none

/-- Scanner for `re.sub(r"([\d.]+)\s*pt", repl, css_text)`; `none` models the
`ValueError` escaping from `repl` on a malformed numeric token. -/
def ptToPxAux : Nat → List Char → Option (List Char)
  | 0, l => some l
  | _ + 1, [] => some []
  | fuel + 1, c :: cs =>
    match matchPtAt (c :: cs) with
    | some (tok, rest) =>
      match pyFloatParts tok with
      | some (num, den) =>
        match ptToPxAux fuel rest with
        | some tail => some ((fmtPyFloat2 (ptPxHundredths num den) ++ "px").data ++ tail)
        | none => none
      | none => none
    | none =>
      match ptToPxAux fuel cs with
      | some tail => some (c :: tail)
      | none => none

/-- The `_pt_to_px(css_text)` at the default ratio 1.3333. -/
def pt_to_px (s : String) : Option String :=
  (ptToPxAux s.data.length s.data).map (fun l => (⟨l⟩ : String))

/-! ### `clamp_hairline_borders` (lines 223-233), style-string level -/

/-- A regex word character (for the `\b` boundary). -/
def isWordCh (c : Char) : Bool :=
  isDigitCh c || (97 ≤ (charLower c).toNat && (charLower c).toNat ≤ 122) ||
  c == Char.ofNat 95

/-- Match `border([^:]*):\s*0\.5pt\s+solid\s+([^;]+);` (flags `re.I`) at the
head; returns the side group, the colour group and the rest. -/
def matchBorderAt (l : List Char) : Option (List Char × List Char × List Char) :=
  match matchCI "border".data l with
  | none => none
  | some r1 =>
    let side := r1.takeWhile (fun c => !(c == Char.ofNat 58))
    match r1.drop side.length with
    | c2 :: r3 =>
      if c2 == Char.ofNat 58 then
        match matchCI "0.5pt".data (r3.dropWhile isPySpace) with
        | none => none
        | some r5 =>
          let sp1 := r5.takeWhile isPySpace
          if sp1.isEmpty then none
          else
            match matchCI "solid".data (r5.drop sp1.length) with
            | none => none
            | some r6 =>
              let sp2 := r6.takeWhile isPySpace
              if sp2.isEmpty then none
              else
                let r7 := r6.drop sp2.length
                let color := r7.takeWhile (fun c => !(c == Char.ofNat 59))
                match r7.drop color.length with
                | c8 :: r9 =>
                  if c8 == Char.ofNat 59 && !color.isEmpty then
                    some (side, color, r9)
                  else none
                | [] => none
      else none
    | [] => none

/-- Scanner for the substitution
`re.sub(r"\bborder([^:]*):\s*0\.5pt\s+solid\s+([^;]+);",
        r"border\1: 1px solid \2;", st, flags=re.I)`
with its leading word boundary. -/
def clampAux : Nat → Bool → List Char → List Char
  | 0, _, l => l
  | _ + 1, _, [] => []
  | fuel + 1, prevW, c :: cs =>
    if !prevW then
      match matchBorderAt (c :: cs) with
      | some (side, color, rest) =>
        ("border".data ++ side ++ ": 1px solid ".data ++ color ++ [Char.ofNat 59]) ++
          clampAux fuel false rest
      | none => c :: clampAux fuel (isWordCh c) cs
    else c :: clampAux fuel (isWordCh c) cs

/-- The hairline-border substitution applied to one style string. -/
def clampHairlineStyle (st : String) : String := ⟨clampAux st.data.length false st.data⟩

/-! ### Tree traversals -/

mutual

/-- First node (the node itself or a descendant, preorder) satisfying `p`. -/
def findSelf (p : Node → Bool) : Node → Option Node
  | Node.txt s => if p (Node.txt s) then some (Node.txt s) else none
  | Node.el t a ks =>
    if p (Node.el t a ks) then some (Node.el t a ks) else findList p ks

/-- First node in the forest (preorder) satisfying `p`;
`tag.find(...)` is `findList p` on the tag's children. -/
def findList (p : Node → Bool) : List Node → Option Node
  | [] => none
  | k :: ks =>
    match findSelf p k with
    | some r => some r
    | none => findList p ks

end

mutual

/-- All nodes of the subtree (preorder) satisfying `p` (`find_all`). -/
def collectSelf (p : Node → Bool) : Node → List Node
  | Node.txt s => if p (Node.txt s) then [Node.txt s] else []
  | Node.el t a ks =>
    (if p (Node.el t a ks) then [Node.el t a ks] else []) ++ collectList p ks

/-- All nodes of the forest (preorder) satisfying `p`. -/
def collectList (p : Node → Bool) : List Node → List Node
  | [] => []
  | k :: ks => collectSelf p k ++ collectList p ks

end

mutual

/-- The `tag.get_text()`: concatenation of all descendant strings. -/
def getTextN : Node → String
  | Node.txt s => s
  | Node.el _ _ ks => getTextL ks

/-- The `get_text` over a forest. -/
def getTextL : List Node → String
  | [] => ""
  | k :: ks => getTextN k ++ getTextL ks

end

/-! ### Serialization (`str(soup)`) -/

/-- HTML void elements, serialized by BeautifulSoup as `<tag …/>`. -/
def voidTags : List String :=
  ["area", "base", "br", "col", "embed", "frame", "hr", "img", "input",
   "link", "meta", "param", "source", "track", "wbr"]

/-- Entity escaping of one text character. -/
def escTextChar (c : Char) : String :=
  if c == Char.ofNat 38 then "&amp;"
  else if c == Char.ofNat 60 then "&lt;"
  else if c == Char.ofNat 62 then "&gt;"
  else ⟨[c]⟩

/-- Entity escaping of text nodes. -/
def escText (s : String) : String := s.data.foldr (fun c acc => escTextChar c ++ acc) ""

/-- Entity escaping of one attribute-value character. -/
def escAttrChar (c : Char) : String :=
  if c == Char.ofNat 34 then "&quot;" else escTextChar c

/-- Entity escaping of attribute values. -/
def escAttr (s : String) : String := s.data.foldr (fun c acc => escAttrChar c ++ acc) ""

/-- Serialize an attribute list in insertion order. -/
def attrsSer (a : List (String × String)) : String :=
  a.foldl (fun acc kv => acc ++ " " ++ kv.1 ++ "=\"" ++ escAttr kv.2 ++ "\"") ""

mutual

/-- The `str(node)`: minimal BeautifulSoup serialization — the `[document]` root
is transparent, void elements self-close, style/script contents are emitted
raw, text is entity-escaped. -/
def serializeNode : Node → String
  | Node.txt s => escText s
  | Node.el t a ks =>
    if t == "[document]" then serializeList ks
    else if voidTags.contains t then "<" ++ t ++ attrsSer a ++ "/>"
    else if t == "style" || t == "script" then
      "<" ++ t ++ attrsSer a ++ ">" ++ getTextL ks ++ "</" ++ t ++ ">"
    else "<" ++ t ++ attrsSer a ++ ">" ++ serializeList ks ++ "</" ++ t ++ ">"

/-- Serialization of a forest. -/
def serializeList : List Node → String
  | [] => ""
  | k :: ks => serializeNode k ++ serializeList ks

end

/-! ### The cleaning passes of `inline_assets_and_clean` -/

mutual

/-- Decompose `script` and `xml` elements (line 453-454). -/
def rmScriptXmlN : Node → Node
  | Node.txt s => Node.txt s
  | Node.el t a ks => Node.el t a (rmScriptXmlL ks)

/-- Decompose `script`/`xml` elements in a forest. -/
def rmScriptXmlL : List Node → List Node
  | [] => []
  | k :: ks =>
    if nodeTag k == "script" || nodeTag k == "xml" then rmScriptXmlL ks
    else rmScriptXmlN k :: rmScriptXmlL ks

end

mutual

/-- Extract all `style` elements from the subtree (the `st.extract()` loop of
lines 591-597, seen from the content's side). -/
def rmStylesN : Node → Node
  | Node.txt s => Node.txt s
  | Node.el t a ks => Node.el t a (rmStylesL ks)

/-- Extract `style` elements from a forest. -/
def rmStylesL : List Node → List Node
  | [] => []
  | k :: ks =>
    if nodeTag k == "style" then rmStylesL ks
    else rmStylesN k :: rmStylesL ks

end

/-- All `style` elements of the document, in document order
(`content_soup.find_all("style")`, line 460). -/
def collectStyles (doc : Node) : List Node :=
  collectSelf (fun n => nodeTag n == "style") doc

/-- The `content_soup.body`: first `body` element. -/
def bodyNode (doc : Node) : Option Node :=
  findList (fun n => nodeTag n == "body") (nodeKids doc)

/-- The children extracted into the content container (lines 458-465):
the body's children, or the whole document's when there is no body. -/
def contentKids (doc : Node) : List Node :=
  match bodyNode doc with
  | some b => nodeKids b
  | none => nodeKids doc

mutual

/-- Remove the first `body`'s children (the state of `content_soup` after the
extraction loop); the flag reports whether a body was found. -/
def emptyBodyN : Node → Node × Bool
  | Node.txt s => (Node.txt s, false)
  | Node.el t a ks =>
    if t == "body" then (Node.el t a [], true)
    else
      let r := emptyBodyL ks
      (Node.el t a r.1, r.2)

/-- The `emptyBodyN` over a forest, stopping at the first body. -/
def emptyBodyL : List Node → List Node × Bool
  | [] => ([], false)
  | k :: ks =>
    let rk := emptyBodyN k
    if rk.2 then (rk.1 :: ks, true)
    else
      let rks := emptyBodyL ks
      (rk.1 :: rks.1, rks.2)

end

/-- The document after the body children moved into the content container;
with no body element, the root's own children are all extracted. -/
def residualOf (doc : Node) : Node :=
  let r := emptyBodyN doc
  if r.2 then r.1
  else
    match doc with
    | Node.el t a _ => Node.el t a []
    | Node.txt s => Node.txt s

/-! ### Whitespace normalization (lines 553-572) -/

/-- Is this a span with `mso-spacerun:yes` in its inline style? -/
def spacerunStyle (n : Node) : Bool :=
  strContains (pyLower ((nodeAttr n "style").getD "")) "mso-spacerun:yes"

/-- Collapse runs of two or more spaces to one (`re.sub(r" {2,}", " ", .)`,
realised as collapsing every run, which is the same substitution). -/
def collapseSpacesAux : Bool → List Char → List Char
  | _, [] => []
  | prevSp, c :: cs =>
    if c == Char.ofNat 32 then
      if prevSp then collapseSpacesAux true cs
      else Char.ofNat 32 :: collapseSpacesAux true cs
    else c :: collapseSpacesAux false cs

/-- The replacement text for a space-run span (lines 557-559): its text (a
single space when empty) with NBSP turned into spaces and space runs
collapsed. -/
def spacerunText (n : Node) : String :=
  let t := getTextN n
  let t := if t == "" then " " else t
  ⟨collapseSpacesAux false
    (t.data.map (fun c => if c == Char.ofNat 160 then Char.ofNat 32 else c))⟩

mutual

/-- Replace `mso-spacerun:yes` spans by their collapsed text (lines 555-560).
BeautifulSoup replaces the outermost such span first; spans nested below it
disappear with the replaced subtree. -/
def spacerunN : Node → Node
  | Node.txt s => Node.txt s
  | Node.el t a ks =>
    if t == "span" && spacerunStyle (Node.el t a ks) then
      Node.txt (spacerunText (Node.el t a ks))
    else Node.el t a (spacerunL ks)

/-- The `spacerunN` over a forest. -/
def spacerunL : List Node → List Node
  | [] => []
  | k :: ks => spacerunN k :: spacerunL ks

end

/-- The characters collapsed inside `p`/`li` text (`[ \t\r\n]+`). -/
def isCollapseWS (c : Char) : Bool :=
  c == Char.ofNat 32 || c == Char.ofNat 9 || c == Char.ofNat 13 || c == Char.ofNat 10

/-- Collapse `[ \t\r\n]+` runs to single spaces. -/
def collapseRunsAux : Bool → List Char → List Char
  | _, [] => []
  | prevWs, c :: cs =>
    if isCollapseWS c then
      if prevWs then collapseRunsAux true cs
      else Char.ofNat 32 :: collapseRunsAux true cs
    else c :: collapseRunsAux false cs

/-- Text normalization of lines 567-568: NBSP to space, whitespace runs to
single spaces. -/
def collapseTextWS (s : String) : String :=
  ⟨collapseRunsAux false
    (s.data.map (fun c => if c == Char.ofNat 160 then Char.ofNat 32 else c))⟩

mutual

/-- Collapse the text nodes of a `p`/`li` subtree, skipping text whose
immediate parent is `code`, `pre` or `style` (lines 563-569). -/
def collapseInN (parentTag : String) : Node → Node
  | Node.txt s =>
    if parentTag == "code" || parentTag == "pre" || parentTag == "style" then Node.txt s
    else Node.txt (collapseTextWS s)
  | Node.el t a ks => Node.el t a (collapseInL t ks)

/-- The `collapseInN` over the children of an element tagged `t`. -/
def collapseInL (t : String) : List Node → List Node
  | [] => []
  | k :: ks => collapseInN t k :: collapseInL t ks

end

/-- Does the string strip to empty (`get_text(strip=True) == ""`)? -/
def strippedEmpty (s : String) : Bool := s.data.all isPySpace

/-- The removal condition of lines 570-572:
`not span.contents or span.get_text(strip=True) == ""`. -/
def emptySpan (n : Node) : Bool :=
  nodeTag n == "span" && ((nodeKids n).isEmpty || strippedEmpty (getTextN n))

mutual

/-- Remove empty spans everywhere below the node. -/
def rmEmptySpanN : Node → Node
  | Node.txt s => Node.txt s
  | Node.el t a ks => Node.el t a (rmEmptySpanL ks)

/-- Remove empty spans from a forest. -/
def rmEmptySpanL : List Node → List Node
  | [] => []
  | k :: ks =>
    if emptySpan k then rmEmptySpanL ks
    else rmEmptySpanN k :: rmEmptySpanL ks

end

mutual

/-- The whitespace pass over `p` and `li` elements (lines 562-572): collapse
their texts, then drop empty spans; processing a nested `p`/`li` again is
idempotent, so one recursive visit of the maximal such subtree suffices. -/
def wsPassN : Node → Node
  | Node.txt s => Node.txt s
  | Node.el t a ks =>
    if t == "p" || t == "li" then rmEmptySpanN (Node.el t a (collapseInL t ks))
    else Node.el t a (wsPassL ks)

/-- The `wsPassN` over a forest. -/
def wsPassL : List Node → List Node
  | [] => []
  | k :: ks => wsPassN k :: wsPassL ks

end

/-! ### Image inlining (lines 490-498) -/

mutual

/-- Inline every `img` whose `src` resolves to a readable file; unresolved or
unreadable sources are left untouched. -/
def imgPassN (fs : FS) (aD dD : FPath) : Node → Node
  | Node.txt s => Node.txt s
  | Node.el t a ks =>
    if t == "img" then
      match resolve_local fs aD dD ((nodeAttr (Node.el t a ks) "src").getD "") with
      | some f =>
        match fs.fileAt? f with
        | some e => setAttr (Node.el t a (imgPassL fs aD dD ks)) "src" (data_uri_for f e.bytes)
        | none => Node.el t a (imgPassL fs aD dD ks)
      | none => Node.el t a (imgPassL fs aD dD ks)
    else Node.el t a (imgPassL fs aD dD ks)

/-- The `imgPassN` over a forest. -/
def imgPassL (fs : FS) (aD dD : FPath) : List Node → List Node
  | [] => []
  | k :: ks => imgPassN fs aD dD k :: imgPassL fs aD dD ks

end

/-! ### Stylesheet bundling (lines 500-551) -/

/-- The stylesheet test of lines 505-507 (`rel` is a multi-valued attribute,
split on whitespace and lowercased; the comparison of the list against the
string `"stylesheet"` in the source is never true and is omitted). -/
def stylesheetRel (n : Node) : Bool :=
  match nodeAttr n "rel" with
  | some v => ((pySplitWS v).map pyLower).contains "stylesheet"
  | none => false

/-- The `<link rel="stylesheet">` pass of lines 503-516, restricted to its
contribution to the CSS bundle: every stylesheet link of the residual
document whose `href` resolves to a readable `.css` file appends that file.
(The link elements themselves live in the residual document, which never
reaches the output.) -/
def linkBundle (fs : FS) (aD dD : FPath) (residual : Node) : List (FPath × String) :=
  (collectSelf (fun n => nodeTag n == "link") residual).filterMap (fun ln =>
    if stylesheetRel ln then
      match resolve_local fs aD dD ((nodeAttr ln "href").getD "") with
      | some f =>
        if pyLower f.suffixStr == ".css" then
          match fs.fileAt? f with
          | some e => some (f, e.bytes)
          | none => none
        else none
      | none => none
    else none)

/-- Insertion by file name (Python sorts the glob results; paths sharing the
directory compare by name). -/
def insertByName (x : FileEntry) : List FileEntry → List FileEntry
  | [] => [x]
  | y :: ys =>
    if lexLe x.path.nameStr.data y.path.nameStr.data then x :: y :: ys
    else y :: insertByName x ys

/-- Sort file entries by name. -/
def sortByPathName : List FileEntry → List FileEntry
  | [] => []
  | x :: xs => insertByName x (sortByPathName xs)

/-- The `sorted(assets_dir.glob("*.css"))` (lines 519-520), restricted to files
(a directory matching the glob fails `read_text` and is skipped). -/
def cssGlobEntries (fs : FS) (aD : FPath) : List FileEntry :=
  if fs.pathExists aD then
    sortByPathName (fs.files.filter (fun e =>
      decide (e.path.parent = aD) && strEndsWith e.path.nameStr ".css"))
  else []

/-- The asset-directory scan contribution to the CSS bundle (lines 518-525). -/
def dirCssBundle (fs : FS) (aD : FPath) : List (FPath × String) :=
  (cssGlobEntries fs aD).map (fun e => (e.path, e.bytes))

/-- The accumulated CSS bundle: link-pass entries followed by the
asset-directory scan entries (no deduplication). -/
def cssBundle (fs : FS) (aD dD : FPath) (residual : Node) : List (FPath × String) :=
  linkBundle fs aD dD residual ++ dirCssBundle fs aD

/-- The `bundled_css_text` (lines 549-551): each bundle entry is url-rewritten
relative to its own directory and appended after a newline. -/
def bundledCssText (fs : FS) (aD : FPath) (bundle : List (FPath × String)) : String :=
  bundle.foldl (fun acc pr => acc ++ "\n" ++ rewrite_css_urls fs aD pr.1.parent pr.2) ""

/-! ### Dialect selection (lines 410-450) -/

/-- The default asset-directory guess `root_dir / (stem + "_files")`
(line 411). -/
def assetsDirFor (p : FPath) : FPath := p.parent.joinS (p.stem ++ "_files")

/-- The `frameset.find("frame", attrs={"src": True})`'s predicate. -/
def isFrameWithSrc (n : Node) : Bool :=
  nodeTag n == "frame" && (nodeAttr n "src").isSome

/-- Python truthiness of the optional candidate string. -/
def truthy : Option String → Bool
  | none => false
  | some s => !(s == "")

/-- Resolution and re-parse of a non-degenerate sheet candidate
(lines 432-446): try `root_dir / candidate`, then the conventional
`<stem>_files` directory by bare filename; when the winning path exists it is
re-read as the content document and the asset directory becomes its parent
(an existing but unreadable path propagates the read error as `none`);
otherwise fall back to the frameset document itself. -/
def sheetSelect (fs : FS) (htmlPath : FPath) (doc : Node) (c : String) :
    Option (Node × FPath) :=
  let rootDir := htmlPath.parent
  let p1 := rootDir.joinS c
  let sheet :=
    if fs.pathExists p1 then p1
    else
      let p2 := (rootDir.joinS (htmlPath.stem ++ "_files")).childName (parsePath c).nameStr
      if fs.pathExists p2 then p2 else p1
  if fs.pathExists sheet then
    match fs.fileAt? sheet with
    | some e => some (docOf e, sheet.parent)
    | none => none
  else some (doc, assetsDirFor htmlPath)

/-- Content selection of `inline_assets_and_clean` (lines 413-450): detect a
frameset, prefer the first frame's `src`, falling back to the worksheet-source
hint when the frame is missing *or its `src` is empty* (Python truthiness),
then resolve and re-parse the sheet. -/
def selectContent (fs : FS) (htmlPath : FPath) (doc : Node) : Option (Node × FPath) :=
  match findList (fun n => nodeTag n == "frameset") (nodeKids doc) with
  | none => some (doc, assetsDirFor htmlPath)
  | some fr =>
    let cand0 : Option String :=
      match findList isFrameWithSrc (nodeKids fr) with
      | some f => nodeAttr f "src"
      | none => none
    let cand1 : Option String :=
      if truthy cand0 then cand0
      else
        match hintRe (serializeNode doc) with
        | some h => some h
        | none => cand0
    if truthy cand1 then sheetSelect fs htmlPath doc (cand1.getD "")
    else some (doc, assetsDirFor htmlPath)

/-- Content selection exactly as claim C2 words it: the candidate is the
`src` of the first frame bearing a `src` attribute, or — only when no such
frame exists — the worksheet-source hint from the raw markup. -/
def selectContentClaim (fs : FS) (htmlPath : FPath) (doc : Node) : Option (Node × FPath) :=
  match findList (fun n => nodeTag n == "frameset") (nodeKids doc) with
  | none => some (doc, assetsDirFor htmlPath)
  | some fr =>
    let cand : Option String :=
      match findList isFrameWithSrc (nodeKids fr) with
      | some f => nodeAttr f "src"
      | none => hintRe (serializeNode doc)
    match cand with
    | some c => sheetSelect fs htmlPath doc c
    | none => some (doc, assetsDirFor htmlPath)

/-- Content selection as claim C2 amended: an *empty* `src` on the first
src-bearing frame is treated like an absent frame, falling through to the
worksheet-source hint; an absent hint falls back to the frameset document's
own body. -/
def selectContentSpec (fs : FS) (htmlPath : FPath) (doc : Node) : Option (Node × FPath) :=
  match findList (fun n => nodeTag n == "frameset") (nodeKids doc) with
  | none => some (doc, assetsDirFor htmlPath)
  | some fr =>
    let cand : Option String :=
      match findList isFrameWithSrc (nodeKids fr) with
      | some f =>
        match nodeAttr f "src" with
        | some s => if s == "" then hintRe (serializeNode doc) else some s
        | none => hintRe (serializeNode doc)
      | none => hintRe (serializeNode doc)
    match cand with
    | some c => sheetSelect fs htmlPath doc c
    | none => some (doc, assetsDirFor htmlPath)

/-- Does the parsed document contain a frameset element? -/
def hasFrameset (doc : Node) : Bool :=
  (findList (fun n => nodeTag n == "frameset") (nodeKids doc)).isSome

/-! ### The pipeline (`inline_assets_and_clean`, lines 392-607) -/

/-- The fixed wrapper style of lines 576-582. -/
def wrapperStyle : String :=
  "margin:0 !important;padding:0;width:min(100%, 900px);background:transparent;overflow:visible;"

/-- The `inline_assets_and_clean(html_path)` over a filesystem snapshot.  `none`
models an exception escaping the function: the input file being unreadable,
or a frameset sheet reference resolving to an existing but unreadable path.
All later stages are total. -/
def inline_assets_and_clean (fs : FS) (htmlPath : FPath) : Option String :=
  match fs.fileAt? htmlPath with
  | none => none
  | some entry =>
    match selectContent fs htmlPath (docOf entry) with
    | none => none
    | some (cdoc0, aD) =>
      let dD := htmlPath.parent
      let cdoc := rmScriptXmlN cdoc0
      let styles := collectStyles cdoc
      let content0 := Node.el "div" [] (contentKids cdoc)
      let residual := residualOf cdoc
      let c1 := imgPassN fs aD dD content0
      let btext := bundledCssText fs aD (cssBundle fs aD dD residual)
      let c2 := spacerunN c1
      let c3 := wsPassN c2
      let c4 := rmStylesN c3
      let wkids :=
        (if !(pyStrip btext == "") then [Node.el "style" [] [Node.txt btext]] else []) ++
        styles ++ [c4]
      let wrapper :=
        Node.el "div" [("class", "wp-office-fixed"), ("style", wrapperStyle)] wkids
      some (cleanupWrapperNoise (serializeNode wrapper))

/-! ### `ensure_default_line_height` (lines 375-389) -/

/-- The element types the pass selects. -/
def lhSelectors : List String :=
  ["p", "li", "div", "span", "h1", "h2", "h3", "h4", "h5", "h6"]

/-- The style update of lines 386-389 for an element without `line-height`:
ensure a trailing semicolon, append `line-height: 1;`, apply `.strip(";")`. -/
def lhAppend (st : String) : String :=
  let st1 :=
    if !(st == "") && !(strEndsWith (pyStrip st) ";") then pyStrip st ++ ";" else st
  pyStripClass (fun c => c == Char.ofNat 59) (st1 ++ "line-height: 1;")

mutual

/-- Apply the default-line-height rule at a node and below: selector-matching
elements whose inline style already mentions `line-height` (substring test of
line 384) are skipped; the others get `lhAppend` of their style. -/
def ensureLhN : Node → Node
  | Node.txt s => Node.txt s
  | Node.el t a ks =>
    if lhSelectors.contains t then
      let st := (nodeAttr (Node.el t a ks) "style").getD ""
      if strContains (pyLower st) "line-height" then Node.el t a (ensureLhL ks)
      else Node.el t (setKV "style" (lhAppend st) a) (ensureLhL ks)
    else Node.el t a (ensureLhL ks)

/-- The `ensureLhN` over a forest. -/
def ensureLhL : List Node → List Node
  | [] => []
  | k :: ks => ensureLhN k :: ensureLhL ks

end

/-- The `ensure_default_line_height(container_soup)`: `select(sel)` yields
descendants, so the container itself is not transformed. -/
def ensure_default_line_height : Node → Node
  | Node.txt s => Node.txt s
  | Node.el t a ks => Node.el t a (ensureLhL ks)

/-! ### `clamp_hairline_borders` (lines 223-233), container level -/

mutual

/-- Apply the hairline-border substitution to a node's style and below; the
style attribute is only written back when the substitution changed it. -/
def clampBordersN : Node → Node
  | Node.txt s => Node.txt s
  | Node.el t a ks =>
    let st := (nodeAttr (Node.el t a ks) "style").getD ""
    let st2 := clampHairlineStyle st
    if st2 == st then Node.el t a (clampBordersL ks)
    else Node.el t (setKV "style" st2 a) (clampBordersL ks)

/-- The `clampBordersN` over a forest. -/
def clampBordersL : List Node → List Node
  | [] => []
  | k :: ks => clampBordersN k :: clampBordersL ks

end

/-- The `clamp_hairline_borders(container)`: `find_all(True)` yields descendants,
so the container itself is not transformed. -/
def clamp_hairline_borders : Node → Node
  | Node.txt s => Node.txt s
  | Node.el t a ks => Node.el t a (clampBordersL ks)

/-! ### Predicates used by the claim theorems -/

mutual

/-- No span elements anywhere in the subtree. -/
def noSpansN : Node → Bool
  | Node.txt _ => true
  | Node.el t _ ks => !(t == "span") && noSpansL ks

/-- No span elements in a forest. -/
def noSpansL : List Node → Bool
  | [] => true
  | k :: ks => noSpansN k && noSpansL ks

end

mutual

/-- The (tag, attribute-list) pairs of all non-`img` elements, preorder. -/
def elemAttrsN : Node → List (String × List (String × String))
  | Node.txt _ => []
  | Node.el t a ks => (if t == "img" then [] else [(t, a)]) ++ elemAttrsL ks

/-- The `elemAttrsN` over a forest. -/
def elemAttrsL : List Node → List (String × List (String × String))
  | [] => []
  | k :: ks => elemAttrsN k ++ elemAttrsL ks

end

mutual

/-- Every `img` of the subtree has a source that `resolve_local` cannot
resolve. -/
def allImgsUnresolvedN (fs : FS) (aD dD : FPath) : Node → Bool
  | Node.txt _ => true
  | Node.el t a ks =>
    (if t == "img" then
      (resolve_local fs aD dD ((nodeAttr (Node.el t a ks) "src").getD "")).isNone
     else true) && allImgsUnresolvedL fs aD dD ks

/-- The `allImgsUnresolvedN` over a forest. -/
def allImgsUnresolvedL (fs : FS) (aD dD : FPath) : List Node → Bool
  | [] => true
  | k :: ks => allImgsUnresolvedN fs aD dD k && allImgsUnresolvedL fs aD dD ks

end

mutual

/-- Every `img` of the subtree has a source that does not resolve against the
document's own directory — neither joined whole nor by bare filename. -/
def imgsNoDocDirN (fs : FS) (dD : FPath) : Node → Bool
  | Node.txt _ => true
  | Node.el t a ks =>
    (if t == "img" then
      let s := (nodeAttr (Node.el t a ks) "src").getD ""
      s == "" ||
        (!(fs.pathExists (dD.joinS s)) &&
         !(fs.pathExists (dD.childName (parsePath s).nameStr)))
     else true) && imgsNoDocDirL fs dD ks

/-- The `imgsNoDocDirN` over a forest. -/
def imgsNoDocDirL (fs : FS) (dD : FPath) : List Node → Bool
  | [] => true
  | k :: ks => imgsNoDocDirN fs dD k && imgsNoDocDirL fs dD ks

end

/-! ### Concrete scenarios used by the claim theorems -/

/-- The filesystem root. -/
def rootD : FPath := ⟨true, []⟩

/-- The directory holding the example documents. -/
def dirH : FPath := ⟨true, ["h"]⟩

/-- The example document path `/h/t.htm`. -/
def pEx : FPath := ⟨true, ["h", "t.htm"]⟩

/-- Scenario C1: a full document whose style element carries text that the
single-pass tag-stripping substitution splices into a new `<html …>` tag. -/
def docC1ex : Node :=
  Node.el "[document]" []
    [Node.el "html" []
      [Node.el "head" [] [Node.el "style" [] [Node.txt "<h<html x>tml y>"]],
       Node.el "body" [] [Node.txt "hi"]]]

/-- Snapshot for scenario C1. -/
def fsC1ex : FS := { files := [⟨pEx, "raw", some docC1ex⟩], dirs := [rootD, dirH] }

/-- The frameset document path `/h/mal.htm` of scenario C2. -/
def pC2ex : FPath := ⟨true, ["h", "mal.htm"]⟩

/-- The worksheet document of scenario C2. -/
def sheetDocEx : Node := Node.el "[document]" [] [Node.el "body" [] [Node.txt "S"]]

/-- Scenario C2: a frameset whose first frame has an *empty* `src`, next to a
worksheet-source hint naming `f_files/sheet001.htm`. -/
def docC2ex : Node :=
  Node.el "[document]" []
    [Node.el "frameset" [] [Node.el "frame" [("src", "")] []],
     Node.el "x:worksheetsource" [("href", "f_files/sheet001.htm")] []]

/-- Snapshot for scenario C2: the worksheet file exists. -/
def fsC2ex : FS :=
  { files := [⟨pC2ex, "raw", some docC2ex⟩,
              ⟨⟨true, ["h", "f_files", "sheet001.htm"]⟩, "sheet", some sheetDocEx⟩]
    dirs := [rootD, dirH, ⟨true, ["h", "f_files"]⟩] }

/-- Snapshot for the C3 witness: one image next to the document, no asset
directory. -/
def fsC3ex : FS :=
  { files := [⟨⟨true, ["h", "img.png"]⟩, "I", none⟩], dirs := [rootD, dirH] }

/-- Scenario C4: a document referencing `pic.png`, which exists next to the
document while the `t_files` asset directory does not exist. -/
def docC4ex : Node :=
  Node.el "[document]" []
    [Node.el "html" [] [Node.el "body" [] [Node.el "img" [("src", "pic.png")] []]]]

/-- Snapshot for scenario C4. -/
def fsC4ex : FS :=
  { files := [⟨pEx, "raw", some docC4ex⟩, ⟨⟨true, ["h", "pic.png"]⟩, "PNG", none⟩]
    dirs := [rootD, dirH] }

/-- Witness scenario for amended C4: the referenced image exists nowhere. -/
def docC4w : Node :=
  Node.el "[document]" []
    [Node.el "html" [] [Node.el "body" [] [Node.el "img" [("src", "missing.png")] []]]]

/-- Snapshot for the C4 witness. -/
def fsC4w : FS := { files := [⟨pEx, "raw", some docC4w⟩], dirs := [rootD, dirH] }

/-- Scenario C5: a plain document with an asset directory shipping a CSS file
whose (unresolvable) `url(...)` reference is quoted with surrounding
whitespace. -/
def docC5ex : Node :=
  Node.el "[document]" [] [Node.el "html" [] [Node.el "body" [] [Node.txt "hi"]]]

/-- Snapshot for scenario C5. -/
def fsC5ex : FS :=
  { files := [⟨pEx, "raw", some docC5ex⟩,
              ⟨⟨true, ["h", "t_files", "s.css"]⟩, "a: url( \"x y.png\" );", none⟩]
    dirs := [rootD, dirH, ⟨true, ["h", "t_files"]⟩] }

/-- Scenario C6: an element styled with a vendor-proprietary (`mso-`)
declaration. -/
def docC6ex : Node :=
  Node.el "[document]" []
    [Node.el "html" [] [Node.el "body" []
      [Node.el "div" [("style", "mso-bidi-language:AR-SA;color:red;")] [Node.txt "a"]]]]

/-- Snapshot for scenario C6. -/
def fsC6ex : FS := { files := [⟨pEx, "raw", some docC6ex⟩], dirs := [rootD, dirH] }

/-- Scenario C7: an element styled with a hairline border. -/
def docC7ex : Node :=
  Node.el "[document]" []
    [Node.el "html" [] [Node.el "body" []
      [Node.el "div" [("style", "border: 0.5pt solid #000000;")] [Node.txt "x"]]]]

/-- Snapshot for scenario C7. -/
def fsC7ex : FS := { files := [⟨pEx, "raw", some docC7ex⟩], dirs := [rootD, dirH] }

/-- Scenario C8: a paragraph with no inline style at all. -/
def docC8ex : Node :=
  Node.el "[document]" []
    [Node.el "html" [] [Node.el "body" [] [Node.el "p" [] [Node.txt "hi"]]]]

/-- Snapshot for scenario C8. -/
def fsC8ex : FS := { files := [⟨pEx, "raw", some docC8ex⟩], dirs := [rootD, dirH] }

/-- Snapshot for scenario C9: `/srv/logo.png` exists; the asset directory
`/h/t_files` exists as well. -/
def fsC9ex : FS :=
  { files := [⟨⟨true, ["srv", "logo.png"]⟩, "L", none⟩]
    dirs := [rootD, ⟨true, ["srv"]⟩, dirH, ⟨true, ["h", "t_files"]⟩] }

/-- The asset directory `/h/t_files`. -/
def aDEx : FPath := ⟨true, ["h", "t_files"]⟩

/-- The stylesheet link element of the C10 witness. -/
def linkC10 : Node := Node.el "link" [("rel", "stylesheet"), ("href", "s.css")] []

/-- The residual document of the C10 witness: a stylesheet link in the head
referencing `s.css`. -/
def residC10 : Node :=
  Node.el "[document]" []
    [Node.el "html" [] [Node.el "head" [] [linkC10], Node.el "body" [] []]]

/-- The stylesheet path of the C10 witness. -/
def cssPC10 : FPath := ⟨true, ["h", "t_files", "s.css"]⟩

/-- Snapshot for the C10 witness: `s.css` lives inside the existing asset
directory and is also referenced by the stylesheet link. -/
def fsC10ex : FS :=
  { files := [⟨cssPC10, "td-color-blue", none⟩]
    dirs := [rootD, dirH, aDEx] }

/-! ## Helper lemmas -/

theorem dropWhile_len_le (p : Char → Bool) :
    ∀ l : List Char, (l.dropWhile p).length ≤ l.length := by
  intro l
  induction l with
  | nil => simp [List.dropWhile]
  | cons c cs ih =>
    simp only [List.dropWhile]
    split
    · simp only [List.length_cons]; omega
    · simp

theorem matchCI_length_eq {p l r : List Char} (h : matchCI p l = some r) :
    r.length + p.length = l.length := by
  induction p generalizing l with
  | nil =>
    simp only [matchCI] at h
    cases h; simp
  | cons a ps ih =>
    cases l with
    | nil => simp [matchCI] at h
    | cons c cs =>
      simp only [matchCI] at h
      split at h
      · have := ih h; simp only [List.length_cons]; omega
      · exact absurd h (by simp)

theorem matchCI_length_le {p l r : List Char} (h : matchCI p l = some r) :
    r.length ≤ l.length := by
  have := matchCI_length_eq h; omega

theorem scanForCI_length_le {p : List Char} :
    ∀ {l r : List Char}, scanForCI p l = some r → r.length ≤ l.length := by
  intro l
  induction l with
  | nil =>
    intro r h
    simp only [scanForCI] at h
    exact matchCI_length_le h
  | cons c cs ih =>
    intro r h
    simp only [scanForCI] at h
    cases hm : matchCI p (c :: cs) with
    | some r2 =>
      rw [hm] at h
      cases h
      exact matchCI_length_le hm
    | none =>
      rw [hm] at h
      have := ih h
      simp only [List.length_cons]; omega

theorem matchWrapName_length_eq {l r : List Char} (h : matchWrapName l = some r) :
    r.length + 4 = l.length := by
  simp only [matchWrapName] at h
  cases h1 : matchCI "html".data l with
  | some r1 =>
    rw [h1] at h; cases h
    have := matchCI_length_eq h1
    simpa using this
  | none =>
    rw [h1] at h
    cases h2 : matchCI "head".data l with
    | some r2 =>
      rw [h2] at h; cases h
      have := matchCI_length_eq h2
      simpa using this
    | none =>
      rw [h2] at h
      have := matchCI_length_eq h
      simpa using this

theorem matchOpenTagAt_length {l r : List Char} (h : matchOpenTagAt l = some r) :
    r.length < l.length := by
  cases l with
  | nil => simp [matchOpenTagAt] at h
  | cons c rest =>
    simp only [matchOpenTagAt] at h
    split at h
    · cases hw : matchWrapName (rest.dropWhile isPySpace) with
      | none => rw [hw] at h; exact absurd h (by simp)
      | some r2 =>
        rw [hw] at h
        dsimp only at h
        have hw2 : r2.length + 4 = (rest.dropWhile isPySpace).length :=
          matchWrapName_length_eq hw
        have hdw : (rest.dropWhile isPySpace).length ≤ rest.length :=
          dropWhile_len_le isPySpace rest
        cases hg : r2.dropWhile (fun d => !(d == Char.ofNat 62)) with
        | nil => rw [hg] at h; exact absurd h (by simp)
        | cons d r4 =>
          rw [hg] at h
          dsimp only at h
          by_cases hd : (d == Char.ofNat 62) = true
          · rw [if_pos hd] at h
            cases h
            have hg2 : (d :: r).length ≤ r2.length := by
              rw [← hg]; exact dropWhile_len_le _ r2
            simp only [List.length_cons] at hg2 ⊢
            omega
          · rw [if_neg hd] at h
            exact absurd h (by simp)
    · exact absurd h (by simp)

theorem matchCloseTagAt_length {l r : List Char} (h : matchCloseTagAt l = some r) :
    r.length < l.length := by
  cases l with
  | nil => simp [matchCloseTagAt] at h
  | cons c l1 =>
    cases l1 with
    | nil => simp [matchCloseTagAt] at h
    | cons c2 rest =>
      simp only [matchCloseTagAt] at h
      split at h
      · cases hw : matchWrapName (rest.dropWhile isPySpace) with
        | none => rw [hw] at h; exact absurd h (by simp)
        | some r2 =>
          rw [hw] at h
          dsimp only at h
          have hw2 : r2.length + 4 = (rest.dropWhile isPySpace).length :=
            matchWrapName_length_eq hw
          have hdw : (rest.dropWhile isPySpace).length ≤ rest.length :=
            dropWhile_len_le isPySpace rest
          cases hg : r2.dropWhile isPySpace with
          | nil => rw [hg] at h; exact absurd h (by simp)
          | cons d r4 =>
            rw [hg] at h
            dsimp only at h
            by_cases hd : (d == Char.ofNat 62) = true
            · rw [if_pos hd] at h
              cases h
              have hg2 : (d :: r).length ≤ r2.length := by
                rw [← hg]; exact dropWhile_len_le _ r2
              simp only [List.length_cons] at hg2 ⊢
              omega
            · rw [if_neg hd] at h
              exact absurd h (by simp)
      · exact absurd h (by simp)

theorem matchCondAt_length {l r : List Char} (h : matchCondAt l = some r) :
    r.length < l.length := by
  simp only [matchCondAt] at h
  cases h1 : matchCI "<!--[if".data l with
  | none => rw [h1] at h; exact absurd h (by simp)
  | some r1 =>
    rw [h1] at h
    have e1 := matchCI_length_eq h1
    have e2 := scanForCI_length_le h
    simp at e1
    omega

theorem matchOpenTagAt_nil : matchOpenTagAt [] = none := rfl

theorem matchCloseTagAt_nil : matchCloseTagAt [] = none := rfl

theorem matchCondAt_nil : matchCondAt [] = none := rfl

theorem stripByAux_length_le (m : List Char → Option (List Char))
    (Hm : ∀ l r, m l = some r → r.length < l.length) :
    ∀ (fuel : Nat) (l : List Char), (stripByAux m fuel l).length ≤ l.length := by
  intro fuel
  induction fuel with
  | zero => intro l; simp [stripByAux]
  | succ f ih =>
    intro l
    cases l with
    | nil => simp [stripByAux]
    | cons c cs =>
      cases hm : m (c :: cs) with
      | some r =>
        simp only [stripByAux, hm]
        have h1 := ih r
        have h2 := Hm _ _ hm
        omega
      | none =>
        simp only [stripByAux, hm]
        have h1 := ih cs
        simp only [List.length_cons]
        omega

theorem stripByAux_of_not_has (m : List Char → Option (List Char)) :
    ∀ (fuel : Nat) (l : List Char), hasBy m l = false → stripByAux m fuel l = l := by
  intro fuel
  induction fuel with
  | zero => intro l _; simp [stripByAux]
  | succ f ih =>
    intro l hnot
    cases l with
    | nil => simp [stripByAux]
    | cons c cs =>
      simp only [hasBy, Bool.or_eq_false_iff] at hnot
      cases hm : m (c :: cs) with
      | some r => rw [hm] at hnot; simp at hnot
      | none => simp only [stripByAux, hm]; rw [ih cs hnot.2]

theorem stripByAux_shorter (m : List Char → Option (List Char))
    (Hm : ∀ l r, m l = some r → r.length < l.length) (Hnil : m [] = none) :
    ∀ (fuel : Nat) (l : List Char), l.length ≤ fuel → hasBy m l = true →
      (stripByAux m fuel l).length < l.length := by
  intro fuel
  induction fuel with
  | zero =>
    intro l hlen hhas
    have : l = [] := by cases l <;> simp_all
    subst this
    simp [hasBy, Hnil] at hhas
  | succ f ih =>
    intro l hlen hhas
    cases l with
    | nil => simp [hasBy, Hnil] at hhas
    | cons c cs =>
      cases hm : m (c :: cs) with
      | some r =>
        simp only [stripByAux, hm]
        have h1 := stripByAux_length_le m Hm f r
        have h2 := Hm _ _ hm
        omega
      | none =>
        simp only [stripByAux, hm]
        simp only [hasBy, hm, Option.isSome_none, Bool.false_or] at hhas
        have h1 := ih cs (by simp only [List.length_cons] at hlen; omega) hhas
        simp only [List.length_cons]
        omega

/-- One full cleanup round is strictly shorter whenever any of the three
patterns still matches in the input. -/
theorem cleanup_shorter {l : List Char}
    (h : (hasBy matchCondAt l || hasBy matchOpenTagAt l || hasBy matchCloseTagAt l) = true) :
    (stripCloseWrapTags (stripOpenWrapTags (stripCondComments l))).length < l.length := by
  by_cases h1 : hasBy matchCondAt l = true
  · have s1 := stripByAux_shorter matchCondAt (fun _ _ => matchCondAt_length)
      matchCondAt_nil l.length l (le_refl _) h1
    have s2 := stripByAux_length_le matchOpenTagAt (fun _ _ => matchOpenTagAt_length)
      (stripCondComments l).length (stripCondComments l)
    have s3 := stripByAux_length_le matchCloseTagAt (fun _ _ => matchCloseTagAt_length)
      (stripOpenWrapTags (stripCondComments l)).length (stripOpenWrapTags (stripCondComments l))
    simp only [stripCondComments, stripOpenWrapTags, stripCloseWrapTags] at *
    omega
  · have e1 : stripCondComments l = l :=
      stripByAux_of_not_has matchCondAt l.length l (by simpa using h1)
    by_cases h2 : hasBy matchOpenTagAt l = true
    · have s2 := stripByAux_shorter matchOpenTagAt (fun _ _ => matchOpenTagAt_length)
        matchOpenTagAt_nil l.length l (le_refl _) h2
      have s3 := stripByAux_length_le matchCloseTagAt (fun _ _ => matchCloseTagAt_length)
        (stripOpenWrapTags l).length (stripOpenWrapTags l)
      simp only [stripCondComments, stripOpenWrapTags, stripCloseWrapTags] at *
      rw [e1]
      omega
    · have h3 : hasBy matchCloseTagAt l = true := by
        rcases Bool.or_eq_true_iff.mp h with hor | hc
        · rcases Bool.or_eq_true_iff.mp hor with ha | hb
          · exact absurd ha h1
          · exact absurd hb h2
        · exact hc
      have e2 : stripOpenWrapTags l = l :=
        stripByAux_of_not_has matchOpenTagAt l.length l (by simpa using h2)
      have s3 := stripByAux_shorter matchCloseTagAt (fun _ _ => matchCloseTagAt_length)
        matchCloseTagAt_nil l.length l (le_refl _) h3
      rw [stripCloseWrapTags, e1, e2]
      exact s3

/-! ## Claim C1 -/

/-- C1 (amended): the final cleanup of `inline_assets_and_clean` deletes, in
one left-to-right pass per pattern, every conditional comment and every
opening/closing html/head/body tag; whenever one pass suffices — that is,
whenever re-running the cleanup on its own output changes nothing, which is
the case for every serialization in which deleting a match does not splice
the surrounding characters into a new wrapper tag — the resulting fragment
contains no opening or closing html/head/body tag. -/
theorem c1_cleanup_no_wrapper_tags (s : String)
    (hidem : cleanupWrapperNoise (cleanupWrapperNoise s) = cleanupWrapperNoise s) :
    hasOpenWrapTag (cleanupWrapperNoise s) = false ∧
    hasCloseWrapTag (cleanupWrapperNoise s) = false := by
  have hdata := congrArg String.data hidem
  have key : stripCloseWrapTags (stripOpenWrapTags (stripCondComments
      (stripCloseWrapTags (stripOpenWrapTags (stripCondComments s.data))))) =
      stripCloseWrapTags (stripOpenWrapTags (stripCondComments s.data)) := hdata
  constructor
  · by_contra hne
    rw [Bool.not_eq_false] at hne
    have hopen : hasBy matchOpenTagAt
        (stripCloseWrapTags (stripOpenWrapTags (stripCondComments s.data))) = true := hne
    have hlt := cleanup_shorter (l :=
      stripCloseWrapTags (stripOpenWrapTags (stripCondComments s.data))) (by simp [hopen])
    rw [key] at hlt
    exact lt_irrefl _ hlt
  · by_contra hne
    rw [Bool.not_eq_false] at hne
    have hclose : hasBy matchCloseTagAt
        (stripCloseWrapTags (stripOpenWrapTags (stripCondComments s.data))) = true := hne
    have hlt := cleanup_shorter (l :=
      stripCloseWrapTags (stripOpenWrapTags (stripCondComments s.data))) (by simp [hclose])
    rw [key] at hlt
    exact lt_irrefl _ hlt

/-- C1 witness: a concrete already-clean fragment on which the cleanup is
idempotent, so the theorem applies and yields a wrapper-tag-free result. -/
theorem c1_witness :
    cleanupWrapperNoise (cleanupWrapperNoise "<p>hi</p>") = cleanupWrapperNoise "<p>hi</p>" ∧
    (hasOpenWrapTag (cleanupWrapperNoise "<p>hi</p>") = false ∧
     hasCloseWrapTag (cleanupWrapperNoise "<p>hi</p>") = false) :=
  ⟨by decide, c1_cleanup_no_wrapper_tags "<p>hi</p>" (by decide)⟩

set_option maxRecDepth 100000

/-- C1 counterexample: for the input file `/h/t.htm` whose style element
carries the text `<h<html x>tml y>`, the pipeline completes and its output
still contains an opening `<html …>` tag — the single-pass substitution
deletes `<html x>` and thereby splices `<h` and `tml y>` into `<html y>`.  So
the claimed fragment-only invariant fails on this input. -/
theorem c1_counterexample :
    (inline_assets_and_clean fsC1ex pEx).isSome = true ∧
    hasOpenWrapTag ((inline_assets_and_clean fsC1ex pEx).getD "") = true ∧
    strContains ((inline_assets_and_clean fsC1ex pEx).getD "") "<html y>" = true := by
  refine ⟨by decide, by decide, by decide⟩

/-! ## Claim C2 -/

theorem hintValueAt_ne_empty {l : List Char} {v : String}
    (h : hintValueAt l = some v) : v ≠ "" := by
  simp only [hintValueAt] at h
  cases hm : matchCI "href=\"".data l with
  | none => rw [hm] at h; exact absurd h (by simp)
  | some r =>
    rw [hm] at h
    dsimp only at h
    cases hd : r.drop (r.takeWhile (fun c => !(c == Char.ofNat 34))).length with
    | nil => rw [hd] at h; exact absurd h (by simp)
    | cons c rest =>
      rw [hd] at h
      dsimp only at h
      by_cases hc :
          (c == Char.ofNat 34 && sheetHintValue
            (r.takeWhile (fun c => !(c == Char.ofNat 34)))) = true
      · rw [if_pos hc] at h
        cases h
        intro hemp
        have hvd : (r.takeWhile (fun c => !(c == Char.ofNat 34))) = [] :=
          congrArg String.data hemp
        rw [hvd] at hc
        simp [sheetHintValue, matchCI] at hc
      · rw [if_neg hc] at h
        exact absurd h (by simp)

theorem hintScan_ne_empty : ∀ {l : List Char} {v : String},
    hintScan l = some v → v ≠ "" := by
  intro l
  induction l with
  | nil => intro v h; simp [hintScan] at h
  | cons c cs ih =>
    intro v h
    simp only [hintScan] at h
    cases hm : hintValueAt (c :: cs) with
    | some w => rw [hm] at h; cases h; exact hintValueAt_ne_empty hm
    | none => rw [hm] at h; exact ih h

theorem hintRe_ne_empty {s v : String} (h : hintRe s = some v) : v ≠ "" :=
  hintScan_ne_empty h

/-- C2 (amended): for every input, the content selection of
`inline_assets_and_clean` equals the claimed selection with one amendment —
a first frame whose `src` attribute is present but *empty* is treated like an
absent frame (Python truthiness), so the worksheet-source hint is consulted;
candidate resolution (document directory first, then the `<stem>_files`
directory by bare filename), the re-parse of the found file, the asset
directory becoming its parent, and the fall-back to the frameset document's
own body are exactly as claimed. -/
theorem c2_frameset_selection (fs : FS) (p : FPath) (doc : Node) :
    selectContent fs p doc = selectContentSpec fs p doc := by
  unfold selectContent selectContentSpec
  cases hfr : findList (fun n => nodeTag n == "frameset") (nodeKids doc) with
  | none => rfl
  | some fr =>
    dsimp only
    cases hF : findList isFrameWithSrc (nodeKids fr) with
    | none =>
      cases hh : hintRe (serializeNode doc) with
      | some h2 =>
        have hne := hintRe_ne_empty hh
        simp [truthy, hne]
      | none => simp [truthy]
    | some f =>
      cases hA : nodeAttr f "src" with
      | some sv =>
        by_cases hsv : sv = ""
        · subst hsv
          cases hh : hintRe (serializeNode doc) with
          | some h2 =>
            have hne := hintRe_ne_empty hh
            simp [truthy, hne, hA]
          | none => simp [truthy, hA]
        · simp [truthy, hsv, hA]
      | none =>
        cases hh : hintRe (serializeNode doc) with
        | some h2 =>
          have hne := hintRe_ne_empty hh
          simp [truthy, hne, hA]
        | none => simp [truthy, hA]

/-- C2 counterexample: on the frameset document whose first frame carries an
*empty* `src` while the raw markup holds a worksheet hint naming an existing
sheet, the code loads the hinted sheet (asset directory `/h/f_files`) whereas
the claim as stated selects the empty frame reference — the two selections
differ, so the claimed precedence ("the hint only when no src-bearing frame
exists") is wrong. -/
theorem c2_counterexample :
    (selectContent fsC2ex pC2ex docC2ex).map Prod.snd ≠
    (selectContentClaim fsC2ex pC2ex docC2ex).map Prod.snd := by
  decide

/-! ## Claim C3 -/

theorem FS.pathExists_parent {fs : FS} (hwf : fs.wf) {q : FPath}
    (hq : fs.pathExists q = true) (hne : q.parts ≠ []) :
    fs.pathExists q.parent = true := by
  simp only [FS.pathExists, Bool.or_eq_true] at hq
  rcases hq with hf | hd
  · rw [Option.isSome_iff_exists] at hf
    obtain ⟨e, he⟩ := hf
    have hmem := List.mem_of_find?_eq_some he
    have hpred := List.find?_some he
    simp only [decide_eq_true_eq] at hpred
    subst hpred
    exact hwf.1 e hmem hne
  · rw [List.any_eq_true] at hd
    obtain ⟨d, hdm, hdq⟩ := hd
    simp only [decide_eq_true_eq] at hdq
    subst hdq
    exact hwf.2 d hdm hne

/-- In a well-formed snapshot nothing exists below a non-existing
directory. -/
theorem childName_not_exists {fs : FS} (hwf : fs.wf) {d : FPath}
    (hd : fs.pathExists d = false) (n : String) :
    fs.pathExists (d.childName n) = false := by
  by_cases hn : n = ""
  · subst hn
    simpa [FPath.childName] using hd
  · by_contra hC
    rw [Bool.not_eq_false] at hC
    have hparts : (d.childName n).parts ≠ [] := by
      simp [FPath.childName, hn]
    have hpe := FS.pathExists_parent hwf hC hparts
    have hpar : (d.childName n).parent = d := by
      simp [FPath.childName, hn, FPath.parent, List.dropLast_concat]
    rw [hpar, hd] at hpe
    exact Bool.noConfusion hpe

/-- C3: on a well-formed filesystem, `resolve_local` realises exactly the
claimed first-match candidate order — (a) reference joined to the asset
directory when that directory exists, (b) reference joined to the document
directory, (c) bare filename in the asset directory, (d) bare filename in
the document directory — returning `none` when no candidate exists. -/
theorem c3_resolution_order (fs : FS) (aD dD : FPath) (src : String)
    (hwf : fs.wf) (hs : src ≠ "") :
    resolve_local fs aD dD src = resolve_spec fs aD dD src := by
  unfold resolve_local resolve_spec
  rw [if_neg hs]
  by_cases hA : fs.pathExists aD = true
  · by_cases h1 : fs.pathExists (aD.joinS src) = true
    · simp [hA, h1, List.find?]
    · rw [Bool.not_eq_true] at h1
      by_cases h2 : fs.pathExists (dD.joinS src) = true
      · simp [hA, h1, h2, List.find?]
      · rw [Bool.not_eq_true] at h2
        by_cases h3 : fs.pathExists (aD.childName (parsePath src).nameStr) = true
        · simp [hA, h1, h2, h3, List.find?]
        · rw [Bool.not_eq_true] at h3
          by_cases h4 : fs.pathExists (dD.childName (parsePath src).nameStr) = true
          · simp [hA, h1, h2, h3, h4, List.find?]
          · rw [Bool.not_eq_true] at h4
            simp [hA, h1, h2, h3, h4, List.find?]
  · rw [Bool.not_eq_true] at hA
    have h3 := childName_not_exists hwf hA (parsePath src).nameStr
    by_cases h2 : fs.pathExists (dD.joinS src) = true
    · simp [hA, h2, List.find?]
    · rw [Bool.not_eq_true] at h2
      by_cases h4 : fs.pathExists (dD.childName (parsePath src).nameStr) = true
      · simp [hA, h2, h3, h4, List.find?]
      · rw [Bool.not_eq_true] at h4
        simp [hA, h2, h3, h4, List.find?]

/-- C3 witness: a concrete well-formed snapshot (an image next to the
document, no asset directory) on which the resolver and the claimed order
agree. -/
theorem c3_witness :
    FS.wf fsC3ex ∧
    resolve_local fsC3ex aDEx dirH "img.png" = resolve_spec fsC3ex aDEx dirH "img.png" :=
  ⟨by decide, c3_resolution_order fsC3ex aDEx dirH "img.png" (by decide) (by decide)⟩

/-! ## Claim C4 -/

theorem selectContent_no_frameset {fs : FS} {p : FPath} {doc : Node}
    (h : hasFrameset doc = false) :
    selectContent fs p doc = some (doc, assetsDirFor p) := by
  unfold selectContent
  unfold hasFrameset at h
  cases hfr : findList (fun n => nodeTag n == "frameset") (nodeKids doc) with
  | none => rfl
  | some fr => rw [hfr] at h; simp at h

theorem resolve_local_none_of_noDocDir {fs : FS} {aD dD : FPath} {s : String}
    (haD : fs.pathExists aD = false)
    (h : s = "" ∨ (fs.pathExists (dD.joinS s) = false ∧
      fs.pathExists (dD.childName (parsePath s).nameStr) = false)) :
    resolve_local fs aD dD s = none := by
  unfold resolve_local
  rcases h with h | ⟨h1, h2⟩
  · simp [h]
  · by_cases hs : s = ""
    · simp [hs]
    · simp [hs, haD, h1, h2]

theorem imgPass_id_of_noDocDir (fs : FS) (aD dD : FPath)
    (haD : fs.pathExists aD = false) :
    ∀ n : Node, imgsNoDocDirN fs dD n = true → imgPassN fs aD dD n = n := by
  intro n
  induction n using Node.rec
    (motive_2 := fun l => imgsNoDocDirL fs dD l = true → imgPassL fs aD dD l = l) with
  | txt s => intro _; rfl
  | el t a ks ih =>
    intro h
    simp only [imgsNoDocDirN, Bool.and_eq_true] at h
    by_cases ht : (t == "img") = true
    · have hcond := h.1
      rw [if_pos ht] at hcond
      have hres : resolve_local fs aD dD
          ((nodeAttr (Node.el t a ks) "src").getD "") = none := by
        apply resolve_local_none_of_noDocDir haD
        rcases Bool.or_eq_true_iff.mp hcond with hc | hc
        · left; simpa using hc
        · right
          rcases Bool.and_eq_true_iff.mp hc with ⟨hc1, hc2⟩
          exact ⟨by simpa using hc1, by simpa using hc2⟩
      simp only [imgPassN, ht, if_true, hres]
      rw [ih h.2]
    · rw [if_neg (by simpa using ht)] at h
      simp only [imgPassN]
      rw [if_neg ht]
      rw [ih h.2]
  | nil => rfl
  | cons k ks ih1 ih2 =>
    rename_i h
    simp only [imgsNoDocDirL, Bool.and_eq_true] at h
    simp only [imgPassL]
    rw [ih1 h.1, ih2 h.2]

/-- C4 (amended): for a non-frameset input whose `<stem>_files` asset
directory does not exist, the pipeline completes without raising, and every
image reference that also fails to resolve against the document's own
directory (joined whole or by bare filename) is left untouched by the
image-inlining pass.  (References that *do* resolve in the document directory
are still inlined — see the counterexample.) -/
theorem c4_missing_assets_dir (fs : FS) (p : FPath) (e : FileEntry)
    (h1 : fs.fileAt? p = some e) (h2 : hasFrameset (docOf e) = false)
    (h3 : fs.pathExists (assetsDirFor p) = false)
    (h4 : imgsNoDocDirN fs p.parent
      (Node.el "div" [] (contentKids (rmScriptXmlN (docOf e)))) = true) :
    (inline_assets_and_clean fs p).isSome = true ∧
    imgPassN fs (assetsDirFor p) p.parent
      (Node.el "div" [] (contentKids (rmScriptXmlN (docOf e)))) =
      Node.el "div" [] (contentKids (rmScriptXmlN (docOf e))) := by
  refine ⟨?_, imgPass_id_of_noDocDir fs _ _ h3 _ h4⟩
  unfold inline_assets_and_clean
  rw [h1]
  dsimp only
  rw [selectContent_no_frameset h2]
  rfl

/-- C4 witness: the concrete non-frameset document whose single image
reference resolves nowhere — the pipeline completes and the image pass is the
identity. -/
theorem c4_witness :
    (inline_assets_and_clean fsC4w pEx).isSome = true ∧
    imgPassN fsC4w (assetsDirFor pEx) pEx.parent
      (Node.el "div" [] (contentKids (rmScriptXmlN (docOf ⟨pEx, "raw", some docC4w⟩)))) =
      Node.el "div" [] (contentKids (rmScriptXmlN (docOf ⟨pEx, "raw", some docC4w⟩))) :=
  c4_missing_assets_dir fsC4w pEx ⟨pEx, "raw", some docC4w⟩ (by rfl) (by decide)
    (by decide) (by decide)

/-- C4 counterexample: with the asset directory `/h/t_files` absent but
`pic.png` lying next to the document, the pipeline still inlines the image
via the document-directory fallback of `resolve_local` — the original
reference string does not survive, contradicting the claim that all local
references remain unresolved originals. -/
theorem c4_counterexample :
    (inline_assets_and_clean fsC4ex pEx).isSome = true ∧
    strContains ((inline_assets_and_clean fsC4ex pEx).getD "") "pic.png" = false ∧
    strContains ((inline_assets_and_clean fsC4ex pEx).getD "") "base64,UE5H" = true := by
  refine ⟨by decide, by decide, by decide⟩

/-! ## Claim C5 -/

/-- C5 (amended): the image-inlining pass preserves the content tree exactly
whenever every image source fails to resolve — resolution failure is
per-reference and never aborts the pass.  (Unresolved `url(...)` references
inside bundled CSS are *not* byte-identical: their surrounding whitespace
and quotes are stripped — see the counterexample; stylesheet `link` elements
live in the residual document and never reach the output at all.) -/
theorem c5_unresolved_preserved (fs : FS) (aD dD : FPath) :
    ∀ n : Node, allImgsUnresolvedN fs aD dD n = true → imgPassN fs aD dD n = n := by
  intro n
  induction n using Node.rec
    (motive_2 := fun l => allImgsUnresolvedL fs aD dD l = true → imgPassL fs aD dD l = l) with
  | txt s => intro _; rfl
  | el t a ks ih =>
    intro h
    simp only [allImgsUnresolvedN, Bool.and_eq_true] at h
    by_cases ht : (t == "img") = true
    · have hcond := h.1
      rw [if_pos ht] at hcond
      rw [Option.isNone_iff_eq_none] at hcond
      simp only [imgPassN, ht, if_true, hcond]
      rw [ih h.2]
    · simp only [imgPassN]
      rw [if_neg ht]
      rw [ih h.2]
  | nil => rfl
  | cons k ks ih1 ih2 =>
    rename_i h
    simp only [allImgsUnresolvedL, Bool.and_eq_true] at h
    simp only [imgPassL]
    rw [ih1 h.1, ih2 h.2]

/-- C5 witness: a concrete content tree with one unresolvable image, on which
the pass is the identity. -/
theorem c5_witness :
    imgPassN fsC4w (assetsDirFor pEx) dirH
      (Node.el "div" [] [Node.el "img" [("src", "missing.png")] []]) =
      Node.el "div" [] [Node.el "img" [("src", "missing.png")] []] :=
  c5_unresolved_preserved fsC4w (assetsDirFor pEx) dirH
    (Node.el "div" [] [Node.el "img" [("src", "missing.png")] []]) (by decide)

/-- C5 counterexample: a bundled stylesheet contains the unresolvable
reference `url( "x y.png" )`; the pipeline's output carries it as
`url(x y.png)` — the surrounding whitespace and quotes are stripped even
though resolution failed, so the original reference string is not preserved
unchanged. -/
theorem c5_counterexample :
    strContains ((inline_assets_and_clean fsC5ex pEx).getD "") "url(x y.png)" = true ∧
    strContains ((inline_assets_and_clean fsC5ex pEx).getD "") "url( \"x y.png\" )" = false := by
  refine ⟨by decide, by decide⟩

/-! ## Claim C6 -/

theorem elemAttrs_imgPass (fs : FS) (aD dD : FPath) :
    ∀ n : Node, elemAttrsN (imgPassN fs aD dD n) = elemAttrsN n := by
  intro n
  induction n using Node.rec
    (motive_2 := fun l => elemAttrsL (imgPassL fs aD dD l) = elemAttrsL l) with
  | txt s => rfl
  | el t a ks ih =>
    by_cases ht : (t == "img") = true
    · simp only [imgPassN, ht, if_true]
      cases hres : resolve_local fs aD dD ((nodeAttr (Node.el t a ks) "src").getD "") with
      | some f =>
        cases hfe : fs.fileAt? f with
        | some e => simp [hfe, setAttr, elemAttrsN, ht, ih]
        | none => simp [hfe, elemAttrsN, ht, ih]
      | none => simp [elemAttrsN, ht, ih]
    · simp only [imgPassN]
      rw [if_neg ht]
      simp [elemAttrsN, ht, ih]
  | nil => rfl
  | cons k ks ih1 ih2 => simp only [imgPassL, elemAttrsL, ih1, ih2]

theorem noSpans_imgPass (fs : FS) (aD dD : FPath) :
    ∀ n : Node, noSpansN n = true → noSpansN (imgPassN fs aD dD n) = true := by
  intro n
  induction n using Node.rec
    (motive_2 := fun l => noSpansL l = true → noSpansL (imgPassL fs aD dD l) = true) with
  | txt s => intro _; rfl
  | el t a ks ih =>
    intro h
    simp only [noSpansN, Bool.and_eq_true] at h
    by_cases ht : (t == "img") = true
    · simp only [imgPassN, ht, if_true]
      cases hres : resolve_local fs aD dD ((nodeAttr (Node.el t a ks) "src").getD "") with
      | some f =>
        cases hfe : fs.fileAt? f with
        | some e =>
          simp only [hfe, setAttr, noSpansN, Bool.and_eq_true]
          exact ⟨h.1, ih h.2⟩
        | none =>
          simp only [hfe, noSpansN, Bool.and_eq_true]
          exact ⟨h.1, ih h.2⟩
      | none =>
        simp only [noSpansN, Bool.and_eq_true]
        exact ⟨h.1, ih h.2⟩
    · simp only [imgPassN]
      rw [if_neg ht]
      simp only [noSpansN, Bool.and_eq_true]
      exact ⟨h.1, ih h.2⟩
  | nil => rfl
  | cons k ks ih1 ih2 =>
    rename_i h
    simp only [noSpansL, Bool.and_eq_true] at h
    simp only [imgPassL, noSpansL, Bool.and_eq_true]
    exact ⟨ih1 h.1, ih2 h.2⟩

theorem spacerun_id_of_noSpans :
    ∀ n : Node, noSpansN n = true → spacerunN n = n := by
  intro n
  induction n using Node.rec
    (motive_2 := fun l => noSpansL l = true → spacerunL l = l) with
  | txt s => intro _; rfl
  | el t a ks ih =>
    intro h
    simp only [noSpansN, Bool.and_eq_true] at h
    have ht : (t == "span") = false := by
      rcases h with ⟨h1, _⟩
      cases hq : (t == "span") with
      | false => rfl
      | true => rw [hq] at h1; simp at h1
    simp [spacerunN, ht, ih h.2]
  | nil => rfl
  | cons k ks ih1 ih2 =>
    rename_i h
    simp only [noSpansL, Bool.and_eq_true] at h
    simp only [spacerunL]
    rw [ih1 h.1, ih2 h.2]

theorem elemAttrs_collapseN :
    ∀ (k : Node) (t : String), elemAttrsN (collapseInN t k) = elemAttrsN k := by
  intro k
  induction k using Node.rec
    (motive_2 := fun l => ∀ t, elemAttrsL (collapseInL t l) = elemAttrsL l) with
  | txt s =>
    intro t
    simp only [collapseInN]
    split <;> rfl
  | el t2 a2 ks ih =>
    intro t
    simp only [collapseInN, elemAttrsN, ih t2]
  | nil => rfl
  | cons k ks ih1 ih2 =>
    rename_i t
    simp only [collapseInL, elemAttrsL, ih1 t, ih2 t]

theorem elemAttrs_collapseL (l : List Node) (t : String) :
    elemAttrsL (collapseInL t l) = elemAttrsL l := by
  induction l with
  | nil => rfl
  | cons k ks ih => simp only [collapseInL, elemAttrsL, elemAttrs_collapseN k t, ih]

theorem noSpans_collapseN :
    ∀ (k : Node) (t : String), noSpansN k = true → noSpansN (collapseInN t k) = true := by
  intro k
  induction k using Node.rec
    (motive_2 := fun l => ∀ t, noSpansL l = true → noSpansL (collapseInL t l) = true) with
  | txt s =>
    intro t _
    simp only [collapseInN]
    split <;> rfl
  | el t2 a2 ks ih =>
    intro t h
    simp only [noSpansN, Bool.and_eq_true] at h
    simp only [collapseInN, noSpansN, Bool.and_eq_true]
    exact ⟨h.1, ih t2 h.2⟩
  | nil => rfl
  | cons k ks ih1 ih2 =>
    rename_i t h
    simp only [noSpansL, Bool.and_eq_true] at h
    simp only [collapseInL, noSpansL, Bool.and_eq_true]
    exact ⟨ih1 t h.1, ih2 t h.2⟩

theorem noSpans_collapseL (l : List Node) (t : String) (h : noSpansL l = true) :
    noSpansL (collapseInL t l) = true := by
  induction l with
  | nil => rfl
  | cons k ks ih =>
    simp only [noSpansL, Bool.and_eq_true] at h
    simp only [collapseInL, noSpansL, Bool.and_eq_true]
    exact ⟨noSpans_collapseN k t h.1, ih h.2⟩

theorem emptySpan_false_of_noSpans {k : Node} (h : noSpansN k = true) :
    emptySpan k = false := by
  cases k with
  | txt s => rfl
  | el t a ks =>
    simp only [noSpansN, Bool.and_eq_true] at h
    simp only [emptySpan, nodeTag]
    rcases h with ⟨h1, _⟩
    cases hq : (t == "span") with
    | false => simp
    | true => rw [hq] at h1; simp at h1

theorem rmEmptySpan_id_of_noSpans :
    ∀ k : Node, noSpansN k = true → rmEmptySpanN k = k := by
  intro k
  induction k using Node.rec
    (motive_2 := fun l => noSpansL l = true → rmEmptySpanL l = l) with
  | txt s => intro _; rfl
  | el t a ks ih =>
    intro h
    simp only [noSpansN, Bool.and_eq_true] at h
    simp only [rmEmptySpanN]
    rw [ih h.2]
  | nil => rfl
  | cons k ks ih1 ih2 =>
    rename_i h
    simp only [noSpansL, Bool.and_eq_true] at h
    simp only [rmEmptySpanL, emptySpan_false_of_noSpans h.1]
    rw [ih1 h.1, ih2 h.2]
    simp

theorem elemAttrs_wsPass :
    ∀ n : Node, noSpansN n = true → elemAttrsN (wsPassN n) = elemAttrsN n := by
  intro n
  induction n using Node.rec
    (motive_2 := fun l => noSpansL l = true → elemAttrsL (wsPassL l) = elemAttrsL l) with
  | txt s => intro _; rfl
  | el t a ks ih =>
    intro h
    simp only [noSpansN, Bool.and_eq_true] at h
    by_cases ht : (t == "p" || t == "li") = true
    · simp only [wsPassN, ht, if_true]
      have hns : noSpansN (Node.el t a (collapseInL t ks)) = true := by
        simp only [noSpansN, Bool.and_eq_true]
        exact ⟨h.1, noSpans_collapseL ks t h.2⟩
      rw [rmEmptySpan_id_of_noSpans _ hns]
      simp only [elemAttrsN, elemAttrs_collapseL]
    · simp only [wsPassN]
      rw [if_neg ht]
      simp only [elemAttrsN, ih h.2]
  | nil => rfl
  | cons k ks ih1 ih2 =>
    rename_i h
    simp only [noSpansL, Bool.and_eq_true] at h
    simp only [wsPassL, elemAttrsL, ih1 h.1, ih2 h.2]

/-- C6 (amended): `inline_assets_and_clean` applies no vendor-prefix
stripping (the `CSS_STRIP_RULES` table of src/main.py is defined but never
used): for any span-free content tree, the tag and full attribute list —
in particular every inline `style`, vendor-prefixed declarations included —
of every non-`img` element survive the pipeline's content passes (image
inlining, space-run replacement, whitespace normalization) verbatim. -/
theorem c6_vendor_styles (fs : FS) (aD dD : FPath) (n : Node)
    (h : noSpansN n = true) :
    elemAttrsN (wsPassN (spacerunN (imgPassN fs aD dD n))) = elemAttrsN n := by
  have h2 : noSpansN (imgPassN fs aD dD n) = true := noSpans_imgPass fs aD dD n h
  rw [spacerun_id_of_noSpans _ h2, elemAttrs_wsPass _ h2]
  exact elemAttrs_imgPass fs aD dD n

/-- C6 witness: the pipeline's content passes leave the attributes of the
vendor-styled div of the C6 scenario untouched. -/
theorem c6_witness :
    elemAttrsN (wsPassN (spacerunN (imgPassN fsC6ex aDEx dirH
      (Node.el "div" [] (contentKids (rmScriptXmlN docC6ex)))))) =
    elemAttrsN (Node.el "div" [] (contentKids (rmScriptXmlN docC6ex))) :=
  c6_vendor_styles fsC6ex aDEx dirH
    (Node.el "div" [] (contentKids (rmScriptXmlN docC6ex))) (by decide)

/-- C6 counterexample: the pipeline's output for an element styled
`mso-bidi-language:AR-SA;` still contains the vendor-proprietary `mso-`
declaration — nothing in `inline_assets_and_clean` strips it. -/
theorem c6_counterexample :
    strContains ((inline_assets_and_clean fsC6ex pEx).getD "")
      "mso-bidi-language:AR-SA;" = true := by
  decide

/-! ## Claim C7 -/

/-- C7 (amended): the point-to-pixel helpers exist in src/main.py but
`inline_assets_and_clean` never invokes them; applied directly,
`clamp_hairline_borders` rewrites a `border(-side): 0.5pt solid C;`
declaration to `border(-side): 1px solid C;` for every side, and `_pt_to_px`
rewrites `font-size: 12pt;` to `font-size: 16.0px;` — Python's float
formatting keeps the trailing `.0`, so the output is not the claimed
`font-size: 16px;` — and `border: 0.5pt solid #000000;` to
`border: 0.67px solid #000000;` (`0.5 × 1.3333` rounded to 2 decimals). -/
theorem c7_pt_to_px_conversion :
    clamp_hairline_borders (Node.el "body" []
      [Node.el "td" [("style", "border: 0.5pt solid #000000;")] []]) =
      Node.el "body" [] [Node.el "td" [("style", "border: 1px solid #000000;")] []] ∧
    clampHairlineStyle "border-top: 0.5pt solid #000000;" =
      "border-top: 1px solid #000000;" ∧
    clampHairlineStyle "border-right: 0.5pt solid #000000;" =
      "border-right: 1px solid #000000;" ∧
    clampHairlineStyle "border-bottom: 0.5pt solid #000000;" =
      "border-bottom: 1px solid #000000;" ∧
    clampHairlineStyle "border-left: 0.5pt solid #000000;" =
      "border-left: 1px solid #000000;" ∧
    pt_to_px "font-size: 12pt;" = some "font-size: 16.0px;" ∧
    pt_to_px "border: 0.5pt solid #000000;" = some "border: 0.67px solid #000000;" := by
  refine ⟨by rfl, by decide, by decide, by decide, by decide, by decide, by decide⟩

/-- C7 counterexample: the pipeline's output for an element carrying
`border: 0.5pt solid #000000;` still contains the unconverted `0.5pt`
declaration and no `1px` — `inline_assets_and_clean` never applies the
point-to-pixel conversion — and `_pt_to_px` itself renders 12pt as
`16.0px`, not the claimed `16px`. -/
theorem c7_counterexample :
    strContains ((inline_assets_and_clean fsC7ex pEx).getD "")
      "border: 0.5pt solid #000000;" = true ∧
    strContains ((inline_assets_and_clean fsC7ex pEx).getD "") "1px" = false ∧
    pt_to_px "font-size: 12pt;" ≠ some "font-size: 16px;" := by
  refine ⟨by decide, by decide, by decide⟩

/-! ## Claim C8 -/

theorem isSubAt_append_self : ∀ (p rest : List Char), isSubAt p (p ++ rest) = true := by
  intro p rest
  induction p with
  | nil => rfl
  | cons a ps ih => simp [isSubAt, ih]

theorem lhAppend_split (d : List Char) :
    ∃ z, (d ++ ("line-height: 1;".data)).dropWhile (fun c => c == Char.ofNat 59) =
      z ++ "line-height: 1;".data := by
  induction d with
  | nil => exact ⟨[], by decide⟩
  | cons c cs ih =>
    by_cases hc : (c == Char.ofNat 59) = true
    · simpa [List.dropWhile_cons, hc] using ih
    · exact ⟨c :: cs, by simp [List.dropWhile_cons, hc]⟩

theorem lhAppend_tail (z : List Char) :
    (((z ++ "line-height: 1;".data).reverse.dropWhile
        (fun c => c == Char.ofNat 59)).reverse) = z ++ "line-height: 1".data := by
  have h1 : ("line-height: 1;".data).reverse = Char.ofNat 59 :: ("line-height: 1".data).reverse := by
    decide
  rw [List.reverse_append, h1]
  have h2 : ("line-height: 1".data).reverse = '1' :: (" :thgieh-enil".data) := by decide
  rw [List.cons_append, List.dropWhile_cons]
  simp only [beq_self_eq_true, if_true]
  rw [h2, List.cons_append, List.dropWhile_cons]
  have h3 : (('1' == Char.ofNat 59)) = false := by decide
  rw [h3]
  simp only [Bool.false_eq_true, if_false]
  rw [← List.cons_append, ← h2, ← List.reverse_append]
  rw [List.reverse_reverse]

/-- The stored style after `lhAppend` always ends in `line-height: 1` (the
final `.strip(";")` removes exactly the trailing semicolon that was just
appended). -/
theorem lhAppend_endsWith (st : String) :
    strEndsWith (lhAppend st) "line-height: 1" = true := by
  unfold lhAppend pyStripClass
  set st1 := if !(st == "") && !(strEndsWith (pyStrip st) ";") then pyStrip st ++ ";" else st
  have hdata : (st1 ++ "line-height: 1;").data = st1.data ++ "line-height: 1;".data := rfl
  obtain ⟨z, hz⟩ := lhAppend_split st1.data
  unfold strEndsWith
  simp only [hdata, hz, lhAppend_tail z]
  rw [List.reverse_append]
  exact isSubAt_append_self _ _

/-- C8 (amended): `ensure_default_line_height` implements the claimed rule —
elements whose inline style already mentions `line-height` are left
untouched, and the others get the declaration `line-height: 1` appended —
except that the code's final `.strip(";")` removes the trailing semicolon,
so the stored style ends in `line-height: 1`, not `line-height: 1;`.
(And `inline_assets_and_clean` never invokes this helper at all — see the
counterexample: the pipeline's output gains no line-height declaration.) -/
theorem c8_line_height (st : String) :
    (strContains (pyLower st) "line-height" = true →
      ensure_default_line_height (Node.el "div" [] [Node.el "p" [("style", st)] []]) =
        Node.el "div" [] [Node.el "p" [("style", st)] []]) ∧
    (strContains (pyLower st) "line-height" = false →
      ensure_default_line_height (Node.el "div" [] [Node.el "p" [("style", st)] []]) =
        Node.el "div" [] [Node.el "p" [("style", lhAppend st)] []] ∧
      strEndsWith (lhAppend st) "line-height: 1" = true) := by
  constructor
  · intro h
    simp [ensure_default_line_height, ensureLhL, ensureLhN, nodeAttr, lhSelectors, h]
  · intro h
    refine ⟨?_, lhAppend_endsWith st⟩
    simp [ensure_default_line_height, ensureLhL, ensureLhN, nodeAttr, lhSelectors, h, setKV]

/-- C8 witness: both branches of the theorem at concrete styles — an element
styled `line-height: 1.5;` is untouched, and an element styled `color:red`
becomes `color:red;line-height: 1`. -/
theorem c8_witness :
    ensure_default_line_height
      (Node.el "div" [] [Node.el "p" [("style", "line-height: 1.5;")] []]) =
      Node.el "div" [] [Node.el "p" [("style", "line-height: 1.5;")] []] ∧
    (ensure_default_line_height
      (Node.el "div" [] [Node.el "p" [("style", "color:red")] []]) =
      Node.el "div" [] [Node.el "p" [("style", lhAppend "color:red")] []] ∧
     strEndsWith (lhAppend "color:red") "line-height: 1" = true) :=
  ⟨(c8_line_height "line-height: 1.5;").1 (by decide),
   (c8_line_height "color:red").2 (by decide)⟩

/-- C8 counterexample: the pipeline applied to a paragraph with no inline
style produces an output containing no `line-height` declaration at all —
`ensure_default_line_height` is never called by `inline_assets_and_clean`,
so nothing is appended. -/
theorem c8_counterexample :
    (inline_assets_and_clean fsC8ex pEx).isSome = true ∧
    strContains ((inline_assets_and_clean fsC8ex pEx).getD "") "line-height" = false := by
  refine ⟨by decide, by decide⟩

/-! ## Claim C9 -/

/-- C9 (amended): the mac-variant resolver `_resolve_local` refuses
scheme-qualified references (`data:`, `http(s):`, `mailto:`) and fragment
references (`#…`) outright — it returns `none` for every filesystem, with no
lookup.  (`resolve_local` of src/main.py has no such guard: it runs its
normal candidate lookups on such strings, and an absolute path that exists
on disk is resolved — see the counterexample.) -/
theorem c9_scheme_refs (src : String) (h : schemeQualified src = true)
    (fs : FS) (htmlDir : FPath) (companionDirs : List FPath) :
    mac_resolve_local fs htmlDir companionDirs src = none := by
  unfold mac_resolve_local
  simp [h]

/-- C9 witness: a `data:` URI is refused by the mac-variant resolver. -/
theorem c9_witness :
    schemeQualified "data:image/png;base64,AA" = true ∧
    mac_resolve_local fsC9ex dirH [aDEx] "data:image/png;base64,AA" = none :=
  ⟨by decide, c9_scheme_refs "data:image/png;base64,AA" (by decide) fsC9ex dirH [aDEx]⟩

/-- C9 counterexample: `resolve_local` of src/main.py performs filesystem
lookups on an absolute reference — `pathlib` joining replaces the left
operand with an absolute right operand, so the existing `/srv/logo.png`
resolves (and would be rewritten downstream), contradicting the claim that
absolute references are returned as not-found immediately with no
filesystem access. -/
theorem c9_counterexample :
    resolve_local fsC9ex aDEx dirH "/srv/logo.png" = some ⟨true, ["srv", "logo.png"]⟩ := by
  decide

/-! ## Claim C10 -/

theorem mem_insertByName {x y : FileEntry} {l : List FileEntry} :
    x ∈ insertByName y l ↔ x = y ∨ x ∈ l := by
  induction l with
  | nil => simp [insertByName]
  | cons z zs ih =>
    simp only [insertByName]
    split
    · simp only [List.mem_cons]
    · simp only [List.mem_cons, ih]
      tauto
    

theorem mem_sortByPathName {x : FileEntry} {l : List FileEntry} :
    x ∈ sortByPathName l ↔ x ∈ l := by
  induction l with
  | nil => simp [sortByPathName]
  | cons z zs ih =>
    simp only [sortByPathName, mem_insertByName, ih, List.mem_cons]

/-- C10: a `.css` file that lies inside the existing asset directory *and* is
referenced by a resolving stylesheet link is appended to the CSS bundle by
both passes — it appears in the link-pass part and in the directory-scan
part, so it is counted at least twice in the accumulated bundle that becomes
the synthesized style block. -/
theorem c10_css_double_bundle (fs : FS) (aD dD : FPath) (r ln : Node)
    (f : FPath) (e : FileEntry) (h : String)
    (hln : ln ∈ collectSelf (fun n => nodeTag n == "link") r)
    (hrel : stylesheetRel ln = true)
    (hhref : nodeAttr ln "href" = some h)
    (hres : resolve_local fs aD dD h = some f)
    (hcss : pyLower f.suffixStr = ".css")
    (hfe : fs.fileAt? f = some e)
    (hparent : f.parent = aD)
    (hname : strEndsWith f.nameStr ".css" = true)
    (haD : fs.pathExists aD = true) :
    f ∈ (linkBundle fs aD dD r).map Prod.fst ∧
    f ∈ (dirCssBundle fs aD).map Prod.fst ∧
    2 ≤ ((cssBundle fs aD dD r).map Prod.fst).count f := by
  have h1 : f ∈ (linkBundle fs aD dD r).map Prod.fst := by
    have hmem : (f, e.bytes) ∈ linkBundle fs aD dD r := by
      unfold linkBundle
      apply List.mem_filterMap.mpr
      refine ⟨ln, hln, ?_⟩
      rw [hrel, if_pos rfl, hhref]
      dsimp only [Option.getD]
      rw [hres]
      dsimp only
      simp [hcss, hfe]
    exact List.mem_map.mpr ⟨(f, e.bytes), hmem, rfl⟩
  have h2 : f ∈ (dirCssBundle fs aD).map Prod.fst := by
    have hemem := List.mem_of_find?_eq_some hfe
    have hep : e.path = f := by
      have := List.find?_some hfe
      simpa using this
    have hfilter : e ∈ fs.files.filter (fun e =>
        decide (e.path.parent = aD) && strEndsWith e.path.nameStr ".css") := by
      apply List.mem_filter.mpr
      refine ⟨hemem, ?_⟩
      rw [hep, hparent, hname]
      simp
    have hglob : e ∈ cssGlobEntries fs aD := by
      unfold cssGlobEntries
      rw [if_pos haD]
      exact mem_sortByPathName.mpr hfilter
    have : (e.path, e.bytes) ∈ dirCssBundle fs aD := by
      unfold dirCssBundle
      exact List.mem_map.mpr ⟨e, hglob, rfl⟩
    rw [hep] at this
    exact List.mem_map.mpr ⟨(f, e.bytes), this, rfl⟩
  refine ⟨h1, h2, ?_⟩
  unfold cssBundle
  rw [List.map_append, List.count_append]
  have c1 : 1 ≤ ((linkBundle fs aD dD r).map Prod.fst).count f := by
    have := List.count_pos_iff.mpr h1
    omega
  have c2 : 1 ≤ ((dirCssBundle fs aD).map Prod.fst).count f := by
    have := List.count_pos_iff.mpr h2
    omega
  omega

/-- C10 witness: in the concrete scenario, `s.css` enters the bundle once
through its stylesheet link and once through the asset-directory scan, so
its count in the accumulated bundle is at least two. -/
theorem c10_witness :
    cssPC10 ∈ (linkBundle fsC10ex aDEx dirH residC10).map Prod.fst ∧
    cssPC10 ∈ (dirCssBundle fsC10ex aDEx).map Prod.fst ∧
    2 ≤ ((cssBundle fsC10ex aDEx dirH residC10).map Prod.fst).count cssPC10 :=
  c10_css_double_bundle fsC10ex aDEx dirH residC10 linkC10 cssPC10
    ⟨cssPC10, "td-color-blue", none⟩ "s.css"
    (by
      rw [show collectSelf (fun n => nodeTag n == "link") residC10 = [linkC10] from rfl]
      exact List.mem_singleton.mpr rfl)
    (by decide) (by rfl) (by decide) (by decide) (by rfl) (by decide) (by decide)
    (by decide)
